import Mathlib

set_option maxRecDepth 100000

/-!
Verification of the robot-policy inference protocol of this repository:

* the message codec `MsgSerializer` (msgpack envelope with numpy `.npy`
  array blobs) from
  `g1_gr00t/source/g1_gr00t/g1_gr00t/tasks/move_cylinder/gr00t_client.py`;
* the action-buffering client `GR00TClient.get_action` from the same file;
* the logging inference server `LoggingRobotInferenceServer.run` from
  `Isaac-GR00T/scripts/inference_service_g1.py`.

The embedding is shallow: Python dictionaries become association lists over
an inductive `Value` type, byte strings become `List Nat` with every
element below 256, exceptions become `Except String` results, and the
effectful parts of the server loop (file writes, image saves) become
explicit outcome parameters.  Floating point numbers are represented by
their IEEE-754 bit patterns: the codec copies float bytes verbatim, so
bit-pattern equality is exactly the wire-level behaviour being specified.
-/

/-! ## Byte-level primitives -/

/-- Big-endian byte encoding of `n` in `w` bytes, most significant first.
Used by the msgpack format for multi-byte length and integer fields.
Meaningful when `n < 256 ^ w`. -/
def beBytes : Nat → Nat → List Nat
  | 0, _ => []
  | w + 1, n => (n / 256 ^ w) :: beBytes w (n % 256 ^ w)

/-- Read `w` big-endian bytes, accumulating into `acc`. -/
def readBE : Nat → Nat → List Nat → Option (Nat × List Nat)
  | 0, acc, bs => some (acc, bs)
  | w + 1, acc, bs =>
    match bs with
    | b :: tl => readBE w (acc * 256 + b) tl
    | [] => none

theorem beBytes_length (w n : Nat) : (beBytes w n).length = w := by
  induction w generalizing n with
  | zero => rfl
  | succ w ih => simp [beBytes, ih]

theorem readBE_beBytes (w : Nat) :
    ∀ (acc n : Nat) (rest : List Nat), n < 256 ^ w →
      readBE w acc (beBytes w n ++ rest) = some (acc * 256 ^ w + n, rest) := by
  induction w with
  | zero =>
    intro acc n rest h
    simp only [Nat.pow_zero, Nat.lt_one_iff] at h
    simp [beBytes, readBE, h]
  | succ w ih =>
    intro acc n rest h
    simp only [beBytes, List.cons_append, readBE]
    rw [ih _ _ _ (Nat.mod_lt _ (Nat.pos_pow_of_pos _ (by norm_num)))]
    have h1 := Nat.div_add_mod n (256 ^ w)
    have h2 : (acc * 256 + n / 256 ^ w) * 256 ^ w + n % 256 ^ w
        = acc * 256 ^ (w + 1) + n := by
      calc (acc * 256 + n / 256 ^ w) * 256 ^ w + n % 256 ^ w
          = acc * (256 ^ w * 256) + (256 ^ w * (n / 256 ^ w) + n % 256 ^ w) := by ring
        _ = acc * 256 ^ (w + 1) + n := by rw [h1, pow_succ]
    rw [h2]

/-- Bytes emitted by `beBytes` are genuine byte values. -/
theorem beBytes_lt (w n : Nat) (hn : n < 256 ^ w) : ∀ b ∈ beBytes w n, b < 256 := by
  induction w generalizing n with
  | zero => simp [beBytes]
  | succ w ih =>
    intro b hb
    simp only [beBytes, List.mem_cons] at hb
    rcases hb with hb | hb
    · subst hb
      have : n / 256 ^ w < 256 := by
        rw [Nat.div_lt_iff_lt_mul (Nat.pos_pow_of_pos _ (by norm_num))]
        calc n < 256 ^ (w + 1) := hn
        _ = 256 * 256 ^ w := by ring
      exact this
    · exact ih _ (Nat.mod_lt _ (Nat.pos_pow_of_pos _ (by norm_num))) _ hb

/-- Group a byte list into 32-bit little-endian words (used when the client
reinterprets a float32 action row as a vector of scalars). Leftover bytes
that do not fill a word are dropped. -/
def leWords32 : List Nat → List Nat
  | b0 :: b1 :: b2 :: b3 :: tl => (b0 + 256 * (b1 + 256 * (b2 + 256 * b3))) :: leWords32 tl
  | _ => []

/-! ## Decimal digits (Python `repr` of a non-negative int) -/

/-- The character for decimal digit `d`. -/
def digitCh (d : Nat) : Char := Char.ofNat (48 + d)

/-- Fuelled decimal printer; `natChars` wraps it with sufficient fuel.
Mirrors Python `repr` of a non-negative integer. -/
def natCharsF : Nat → Nat → List Char
  | 0, _ => []
  | fuel + 1, n =>
    if n < 10 then [digitCh n]
    else natCharsF fuel (n / 10) ++ [digitCh (n % 10)]

/-- Decimal representation of a natural number, most significant digit
first, as Python `repr` prints it. -/
def natChars (n : Nat) : List Char := natCharsF (n + 1) n

/-- Is `c` an ASCII decimal digit? -/
def isDigitCh (c : Char) : Bool := 48 ≤ c.toNat && c.toNat ≤ 57

/-- Consume a maximal run of decimal digits, accumulating their value. -/
def readDigitsAux : List Char → Nat → Nat × List Char
  | [], acc => (acc, [])
  | c :: r, acc =>
    if isDigitCh c then readDigitsAux r (acc * 10 + (c.toNat - 48))
    else (acc, c :: r)

/-- Read a decimal number (at least one digit required). -/
def readNat (cs : List Char) : Option (Nat × List Char) :=
  match cs with
  | c :: r => if isDigitCh c then some (readDigitsAux r (c.toNat - 48)) else none
  | [] => none

/-- `Char.ofNat` on a valid scalar value keeps the code point. -/
theorem toNat_ofNat_valid (n : Nat) (h : n.isValidChar) : (Char.ofNat n).toNat = n := by
  simp [Char.ofNat, h, Char.toNat, Char.ofNatAux, UInt32.toNat, UInt32.ofNatCore]

theorem toNat_digitCh (d : Nat) (hd : d < 10) : (digitCh d).toNat = 48 + d := by
  have : (48 + d).isValidChar := by
    constructor
    omega
  simp [digitCh, toNat_ofNat_valid _ this]

theorem isDigitCh_digitCh (d : Nat) (hd : d < 10) : isDigitCh (digitCh d) = true := by
  simp [isDigitCh, toNat_digitCh d hd]
  omega

theorem readDigitsAux_natCharsF (fuel : Nat) :
    ∀ (n acc : Nat) (rest : List Char), n < fuel →
      readDigitsAux (natCharsF fuel n ++ rest) acc =
        readDigitsAux rest (acc * 10 ^ (natCharsF fuel n).length + n) := by
  induction fuel with
  | zero => omega
  | succ fuel ih =>
    intro n acc rest hn
    by_cases h10 : n < 10
    · simp only [natCharsF, if_pos h10, List.singleton_append, readDigitsAux,
        isDigitCh_digitCh n h10, if_pos, List.length_singleton, pow_one,
        toNat_digitCh n h10]
      congr 1
      omega
    · have hd : n / 10 < fuel := by
        have := Nat.div_lt_self (by omega : 0 < n) (by norm_num : 1 < 10)
        omega
      simp only [natCharsF, if_neg h10, List.append_assoc, List.singleton_append]
      rw [ih _ acc _ hd]
      have hm : n % 10 < 10 := Nat.mod_lt _ (by norm_num)
      simp only [readDigitsAux, isDigitCh_digitCh _ hm, if_pos, toNat_digitCh _ hm,
        List.length_append, List.length_singleton]
      congr 1
      have := Nat.div_add_mod n 10
      ring_nf
      set L := (natCharsF fuel (n / 10)).length
      have h1 : 10 ^ (1 + L) = 10 * 10 ^ L := by ring
      omega

theorem natCharsF_all_digits (fuel : Nat) :
    ∀ n, ∀ c ∈ natCharsF fuel n, ∃ d, d < 10 ∧ c = digitCh d := by
  induction fuel with
  | zero => simp [natCharsF]
  | succ fuel ih =>
    intro n c hc
    by_cases h10 : n < 10
    · simp only [natCharsF, if_pos h10, List.mem_singleton] at hc
      exact ⟨n, h10, hc⟩
    · simp only [natCharsF, if_neg h10, List.mem_append, List.mem_singleton] at hc
      rcases hc with hc | hc
      · exact ih _ _ hc
      · exact ⟨n % 10, Nat.mod_lt _ (by norm_num), hc⟩

theorem natCharsF_ne_nil (fuel n : Nat) (h : 0 < fuel) : natCharsF fuel n ≠ [] := by
  cases fuel with
  | zero => omega
  | succ fuel =>
    by_cases h10 : n < 10 <;> simp [natCharsF, h10]

/-- Reading the decimal print of `n` followed by a non-digit resumes exactly
after it and returns `n`. -/
theorem readNat_natChars (n : Nat) (rest : List Char)
    (hrest : ∀ c, rest.head? = some c → isDigitCh c = false) :
    readNat (natChars n ++ rest) = some (n, rest) := by
  have stop : ∀ acc, readDigitsAux rest acc = (acc, rest) := by
    intro acc
    match rest, hrest with
    | [], _ => rfl
    | c :: r, hr =>
      have := hr c rfl
      simp [readDigitsAux, this]
  have key : readDigitsAux (natChars n ++ rest) 0 = (n, rest) := by
    rw [natChars, readDigitsAux_natCharsF (n + 1) n 0 rest (by omega), stop]
    simp
  match hcf : natChars n with
  | [] => exact absurd hcf (natCharsF_ne_nil _ _ (by omega))
  | c :: cs =>
    obtain ⟨d, hd, hcd⟩ := natCharsF_all_digits (n + 1) n c (by rw [← natChars, hcf]; simp)
    rw [hcf] at key
    simp only [List.cons_append, readDigitsAux] at key
    rw [hcd, isDigitCh_digitCh d hd] at key
    simp only [if_pos] at key
    simp only [List.cons_append, readNat, hcd, isDigitCh_digitCh d hd, if_pos]
    rw [← key]
    simp

/-! ## UTF-8 (Python `str.encode("utf-8")`, as used by msgpack for `str`) -/

/-- UTF-8 bytes of a single code point. -/
def utf8Char (c : Char) : List Nat :=
  let n := c.toNat
  if n < 128 then [n]
  else if n < 2048 then [192 + n / 64, 128 + n % 64]
  else if n < 65536 then [224 + n / 4096, 128 + n / 64 % 64, 128 + n % 64]
  else [240 + n / 262144, 128 + n / 4096 % 64, 128 + n / 64 % 64, 128 + n % 64]

/-- UTF-8 bytes of a character sequence. -/
def utf8Enc : List Char → List Nat
  | [] => []
  | c :: cs => utf8Char c ++ utf8Enc cs

theorem char_toNat_lt (c : Char) : c.toNat < 1114112 := by
  have hv : c.toNat = c.val.toNat := rfl
  rcases c.valid with h | h <;> omega

theorem utf8Char_lt (c : Char) : ∀ b ∈ utf8Char c, b < 256 := by
  have := char_toNat_lt c
  simp only [utf8Char]
  split
  · simp only [List.mem_singleton]
    omega
  · split
    · simp only [List.mem_cons, List.not_mem_nil, or_false]
      intro b hb
      rcases hb with h | h <;> omega
    · split
      · simp only [List.mem_cons, List.not_mem_nil, or_false]
        intro b hb
        rcases hb with h | h | h <;> omega
      · simp only [List.mem_cons, List.not_mem_nil, or_false]
        intro b hb
        rcases hb with h | h | h | h <;> omega

theorem utf8Enc_lt (cs : List Char) : ∀ b ∈ utf8Enc cs, b < 256 := by
  induction cs with
  | nil => simp [utf8Enc]
  | cons c cs ih =>
    intro b hb
    simp only [utf8Enc, List.mem_append] at hb
    rcases hb with h | h
    · exact utf8Char_lt c b h
    · exact ih b h


/-- Is `b` a UTF-8 continuation byte? -/
def utf8Cont (b : Nat) : Bool := 128 ≤ b && b < 192

/-- Finish a 2-byte UTF-8 sequence headed by `b`. -/
def utf8Step2 (b : Nat) : List Nat → Option (Char × List Nat)
  | b2 :: tl => if utf8Cont b2 then some (Char.ofNat ((b - 192) * 64 + (b2 - 128)), tl) else none
  | [] => none

/-- Finish a 3-byte UTF-8 sequence headed by `b`. -/
def utf8Step3 (b : Nat) : List Nat → Option (Char × List Nat)
  | b2 :: b3 :: tl =>
    if utf8Cont b2 && utf8Cont b3 then
      some (Char.ofNat ((b - 224) * 4096 + (b2 - 128) * 64 + (b3 - 128)), tl)
    else none
  | _ => none

/-- Finish a 4-byte UTF-8 sequence headed by `b`. -/
def utf8Step4 (b : Nat) : List Nat → Option (Char × List Nat)
  | b2 :: b3 :: b4 :: tl =>
    if utf8Cont b2 && utf8Cont b3 && utf8Cont b4 then
      some (Char.ofNat ((b - 240) * 262144 + (b2 - 128) * 4096 + (b3 - 128) * 64 + (b4 - 128)),
        tl)
    else none
  | _ => none

/-- Decode one UTF-8 character off the front of a byte list. -/
def utf8Step : List Nat → Option (Char × List Nat)
  | [] => none
  | b :: tl =>
    if b < 128 then some (Char.ofNat b, tl)
    else if b < 192 then none
    else if b < 224 then utf8Step2 b tl
    else if b < 240 then utf8Step3 b tl
    else if b < 248 then utf8Step4 b tl
    else none

/-- Fuelled UTF-8 decoding of a byte list. -/
def utf8DecF : Nat → List Nat → Option (List Char)
  | _, [] => some []
  | 0, _ :: _ => none
  | fuel + 1, b :: tl =>
    match utf8Step (b :: tl) with
    | some (c, rest) => (utf8DecF fuel rest).map (fun cs => c :: cs)
    | none => none

/-- UTF-8 decoding of a whole byte list back to characters
(Python `bytes.decode("utf-8")`). -/
def utf8Dec (bs : List Nat) : Option (List Char) := utf8DecF bs.length bs

theorem utf8Step_utf8Char (c : Char) (tl : List Nat) :
    utf8Step (utf8Char c ++ tl) = some (c, tl) := by
  have hlt := char_toNat_lt c
  simp only [utf8Char]
  by_cases h1 : c.toNat < 128
  · simp only [if_pos h1, List.cons_append, List.nil_append, utf8Step, Char.ofNat_toNat]
  · by_cases h2 : c.toNat < 2048
    · have c1 : ¬ (192 + c.toNat / 64 < 128) := by omega
      have c2 : ¬ (192 + c.toNat / 64 < 192) := by omega
      have c3 : 192 + c.toNat / 64 < 224 := by omega
      have c4 : utf8Cont (128 + c.toNat % 64) = true := by
        simp only [utf8Cont, Bool.and_eq_true, decide_eq_true_eq]
        omega
      simp only [if_neg h1, if_pos h2, List.cons_append, List.nil_append, utf8Step,
        if_neg c1, if_neg c2, if_pos c3, utf8Step2, c4, if_pos]
      have harith : (192 + c.toNat / 64 - 192) * 64 + (128 + c.toNat % 64 - 128) = c.toNat := by
        omega
      rw [harith, Char.ofNat_toNat]
    · by_cases h3 : c.toNat < 65536
      · have c1 : ¬ (224 + c.toNat / 4096 < 128) := by omega
        have c2 : ¬ (224 + c.toNat / 4096 < 192) := by omega
        have c3 : ¬ (224 + c.toNat / 4096 < 224) := by omega
        have c4 : 224 + c.toNat / 4096 < 240 := by omega
        have c5 : (utf8Cont (128 + c.toNat / 64 % 64) && utf8Cont (128 + c.toNat % 64)) = true := by
          simp only [utf8Cont, Bool.and_eq_true, decide_eq_true_eq]
          omega
        simp only [if_neg h1, if_neg h2, if_pos h3, List.cons_append, List.nil_append, utf8Step,
          if_neg c1, if_neg c2, if_neg c3, if_pos c4, utf8Step3, c5, if_pos]
        have harith : (224 + c.toNat / 4096 - 224) * 4096 +
            (128 + c.toNat / 64 % 64 - 128) * 64 + (128 + c.toNat % 64 - 128) = c.toNat := by
          omega
        rw [harith, Char.ofNat_toNat]
      · have c1 : ¬ (240 + c.toNat / 262144 < 128) := by omega
        have c2 : ¬ (240 + c.toNat / 262144 < 192) := by omega
        have c3 : ¬ (240 + c.toNat / 262144 < 224) := by omega
        have c4 : ¬ (240 + c.toNat / 262144 < 240) := by omega
        have c5 : 240 + c.toNat / 262144 < 248 := by omega
        have c6 : (utf8Cont (128 + c.toNat / 4096 % 64) && utf8Cont (128 + c.toNat / 64 % 64) &&
            utf8Cont (128 + c.toNat % 64)) = true := by
          simp only [utf8Cont, Bool.and_eq_true, decide_eq_true_eq]
          omega
        simp only [if_neg h1, if_neg h2, if_neg h3, List.cons_append, List.nil_append, utf8Step,
          if_neg c1, if_neg c2, if_neg c3, if_neg c4, if_pos c5, utf8Step4, c6, if_pos]
        have harith : (240 + c.toNat / 262144 - 240) * 262144 +
            (128 + c.toNat / 4096 % 64 - 128) * 4096 +
            (128 + c.toNat / 64 % 64 - 128) * 64 + (128 + c.toNat % 64 - 128) = c.toNat := by
          omega
        rw [harith, Char.ofNat_toNat]

theorem utf8Char_length_pos (c : Char) : 0 < (utf8Char c).length := by
  simp only [utf8Char]
  split
  · simp
  · split
    · simp
    · split <;> simp

theorem utf8DecF_enc_append (cs : List Char) : ∀ (fuel : Nat) (tl : List Nat),
    cs.length ≤ fuel →
    utf8DecF fuel (utf8Enc cs ++ tl) = (utf8DecF (fuel - cs.length) tl).map (fun ds => cs ++ ds)
    := by
  induction cs with
  | nil =>
    intro fuel tl _
    simp only [utf8Enc, List.nil_append, List.length_nil, Nat.sub_zero]
    cases utf8DecF fuel tl <;> rfl
  | cons c cs ih =>
    intro fuel tl hf
    simp only [List.length_cons] at hf
    match fuel, hf with
    | fuel + 1, _ =>
      have hne : utf8Char c ++ (utf8Enc cs ++ tl) ≠ [] := by
        have := utf8Char_length_pos c
        cases h : utf8Char c with
        | nil => rw [h] at this; simp at this
        | cons x xs => simp [h]
      rw [show utf8Enc (c :: cs) = utf8Char c ++ utf8Enc cs from rfl, List.append_assoc]
      match hsh : utf8Char c ++ (utf8Enc cs ++ tl), hne with
      | b :: bs, _ =>
        rw [utf8DecF, ← hsh, utf8Step_utf8Char]
        dsimp only
        rw [ih fuel tl (by omega)]
        have hl : fuel + 1 - (c :: cs).length = fuel - cs.length := by
          simp only [List.length_cons]
          omega
        rw [hl]
        cases utf8DecF (fuel - cs.length) tl <;> rfl

/-- Round-trip of the UTF-8 embedding: decoding an encoded character list
restores it. -/
theorem utf8Dec_utf8Enc (cs : List Char) : utf8Dec (utf8Enc cs) = some cs := by
  have hlen : cs.length ≤ (utf8Enc cs).length := by
    induction cs with
    | nil => simp [utf8Enc]
    | cons c cs ih =>
      have := utf8Char_length_pos c
      simp only [utf8Enc, List.length_append, List.length_cons]
      omega
  have hnil : ∀ fuel, utf8DecF fuel [] = some [] := by
    intro fuel
    cases fuel <;> rfl
  have := utf8DecF_enc_append cs (utf8Enc cs).length [] hlen
  simp only [List.append_nil] at this
  rw [utf8Dec, this, hnil]
  simp

/-! ## The numpy `.npy` v1.0 format (`np.save` / `np.load` with
`allow_pickle=False`), which `MsgSerializer` uses to embed arrays. -/

/-- The array element types used by this protocol: `np.uint8` (images),
`np.int64`, `np.float32` (action chunks), `np.float64` (state vectors). -/
inductive Dtype where
  | u1 : Dtype
  | i8 : Dtype
  | f4 : Dtype
  | f8 : Dtype
deriving DecidableEq

/-- Bytes per element. -/
def Dtype.itemsize : Dtype → Nat
  | .u1 => 1
  | .i8 => 8
  | .f4 => 4
  | .f8 => 8

/-- The numpy `descr` string of the dtype. -/
def Dtype.descrChars : Dtype → List Char
  | .u1 => "|u1".data
  | .i8 => "<i8".data
  | .f4 => "<f4".data
  | .f8 => "<f8".data

/-- Recover a dtype from its `descr` string. -/
def descrToDtype (cs : List Char) : Option Dtype :=
  if cs == "|u1".data then some .u1
  else if cs == "<i8".data then some .i8
  else if cs == "<f4".data then some .f4
  else if cs == "<f8".data then some .f8
  else none

/-- Single-quote character (written by code point: it is header punctuation). -/
def squoteCh : Char := Char.ofNat 39

/-- Opening brace character of the header dict literal. -/
def lbraceCh : Char := Char.ofNat 123

/-- Closing brace character of the header dict literal. -/
def rbraceCh : Char := Char.ofNat 125

/-- Newline terminating the padded header. -/
def newlineCh : Char := Char.ofNat 10

/-- Match an exact literal prefix and return the remainder. -/
def expectChars : List Char → List Char → Option (List Char)
  | [], cs => some cs
  | p :: ps, c :: cs => if c == p then expectChars ps cs else none
  | _ :: _, [] => none

/-- Consume characters up to and including the next single quote. -/
def scanToQuote : List Char → Option (List Char × List Char)
  | [] => none
  | c :: cs =>
    if c == squoteCh then some ([], cs)
    else (scanToQuote cs).map (fun p => (c :: p.1, p.2))

/-- Skip a run of spaces. -/
def skipSpaces : List Char → List Char
  | c :: cs => if c == ' ' then skipSpaces cs else c :: cs
  | [] => []

/-- `repr` of the tail of a shape tuple with two or more entries. -/
def shapeTail : List Nat → List Char
  | [] => [')']
  | m :: rest => ',' :: ' ' :: (natChars m ++ shapeTail rest)

/-- Python `repr` of a shape tuple, as numpy writes it into the header:
`()`, `(7,)`, `(16, 7)`, ... -/
def shapeRepr : List Nat → List Char
  | [] => ['(', ')']
  | [n] => '(' :: (natChars n ++ [',', ')'])
  | n :: m :: rest => '(' :: (natChars n ++ shapeTail (m :: rest))

/-- Separator after a number in a shape tuple: `,)` or `)` end the tuple,
`, ` announces another entry. -/
def shapeSep : List Char → Option (Bool × List Char)
  | ',' :: ')' :: r => some (true, r)
  | ',' :: ' ' :: r => some (false, r)
  | ')' :: r => some (true, r)
  | _ => none

/-- Parse the entries of a nonempty shape tuple (fuelled). -/
def parseShapeNums : Nat → List Char → Option (List Nat × List Char)
  | 0, _ => none
  | fuel + 1, cs =>
    match readNat cs with
    | some (n, r) =>
      match shapeSep r with
      | some (true, r2) => some ([n], r2)
      | some (false, r2) =>
        match parseShapeNums fuel r2 with
        | some (ns, r3) => some (n :: ns, r3)
        | none => none
      | none => none
    | none => none

/-- Parse a shape tuple literal. -/
def parseShape : List Char → Option (List Nat × List Char)
  | c :: cs =>
    if c == '(' then
      match cs with
      | ')' :: r2 => some ([], r2)
      | _ => parseShapeNums cs.length cs
    else none
  | [] => none

/-- Header fragment before the `descr` value. -/
def hdrPre : List Char :=
  [lbraceCh, squoteCh] ++ "descr".data ++ [squoteCh, ':', ' ', squoteCh]

/-- Header fragment between the `descr` value and the shape tuple. -/
def hdrMid : List Char :=
  [',', ' ', squoteCh] ++ "fortran_order".data ++ [squoteCh, ':', ' '] ++ "False".data
    ++ [',', ' ', squoteCh] ++ "shape".data ++ [squoteCh, ':', ' ']

/-- Header fragment after the shape tuple. -/
def hdrEnd : List Char := [',', ' ', rbraceCh]

/-- The numpy header dict literal, e.g.
`(brace)(q)descr(q): (q)<f4(q), (q)fortran_order(q): False, (q)shape(q): (16, 7), (brace)`. -/
def npyHeaderChars (dt : Dtype) (sh : List Nat) : List Char :=
  hdrPre ++ dt.descrChars ++ [squoteCh] ++ hdrMid ++ shapeRepr sh ++ hdrEnd

/-- The header padded with spaces and terminated by a newline so that the
total prefix length (10-byte magic plus header) is a multiple of 64, exactly
as `numpy.lib.format._wrap_header` computes it. -/
def npyHeaderFull (dt : Dtype) (sh : List Nat) : List Char :=
  let hdr := npyHeaderChars dt sh
  hdr ++ List.replicate (64 - (10 + hdr.length + 1) % 64) ' ' ++ [newlineCh]

/-- `np.save` for a C-contiguous array: magic, version 1.0, little-endian
header length, padded header, then the raw element bytes. -/
def npySave (dt : Dtype) (sh : List Nat) (data : List Nat) : List Nat :=
  let full := npyHeaderFull dt sh
  [147, 78, 85, 77, 80, 89, 1, 0] ++ [full.length % 256, full.length / 256 % 256]
    ++ full.map Char.toNat ++ data

/-- Parse the header dict literal. -/
def parseNpyHeader (cs : List Char) : Option (Dtype × List Nat) :=
  match expectChars hdrPre cs with
  | none => none
  | some cs1 =>
    match scanToQuote cs1 with
    | none => none
    | some (descr, cs2) =>
      match descrToDtype descr with
      | none => none
      | some dt =>
        match expectChars hdrMid cs2 with
        | none => none
        | some cs3 =>
          match parseShape cs3 with
          | none => none
          | some (sh, cs4) =>
            match expectChars hdrEnd cs4 with
            | none => none
            | some cs5 =>
              match skipSpaces cs5 with
              | c :: [] => if c == newlineCh then some (dt, sh) else none
              | _ => none

/-- `np.load` on an in-memory buffer: check magic and version, read the
header, then read exactly `shape.prod * itemsize` element bytes (trailing
bytes are ignored, a short buffer is an error). -/
def npyLoad (bs : List Nat) : Option (Dtype × List Nat × List Nat) :=
  match bs with
  | b0 :: b1 :: b2 :: b3 :: b4 :: b5 :: v0 :: v1 :: l0 :: l1 :: rest =>
    if b0 == 147 && b1 == 78 && b2 == 85 && b3 == 77 && b4 == 80 && b5 == 89
        && v0 == 1 && v1 == 0 then
      let hlen := l0 + 256 * l1
      if hlen ≤ rest.length then
        match parseNpyHeader ((rest.take hlen).map Char.ofNat) with
        | some (dt, sh) =>
          let need := sh.prod * dt.itemsize
          let body := rest.drop hlen
          if need ≤ body.length then some (dt, sh, body.take need) else none
        | none => none
      else none
    else none
  | _ => none

theorem expectChars_append (pat : List Char) : ∀ rest, expectChars pat (pat ++ rest) = some rest
    := by
  induction pat with
  | nil => intro rest; rfl
  | cons p ps ih =>
    intro rest
    simp only [List.cons_append, expectChars, beq_self_eq_true, if_pos, List.append_eq, ih]

theorem scanToQuote_append (pre : List Char) (hq : ∀ c ∈ pre, (c == squoteCh) = false) :
    ∀ rest, scanToQuote (pre ++ squoteCh :: rest) = some (pre, rest) := by
  induction pre with
  | nil =>
    intro rest
    simp [scanToQuote]
  | cons c cs ih =>
    intro rest
    have hc := hq c (by simp)
    simp only [List.cons_append, scanToQuote, hc, Bool.false_eq_true, if_false,
      List.append_eq, ih (fun d hd => hq d (by simp [hd])) rest]
    rfl

theorem descrToDtype_descrChars (dt : Dtype) : descrToDtype dt.descrChars = some dt := by
  cases dt <;> rfl

theorem descrChars_no_quote (dt : Dtype) : ∀ c ∈ dt.descrChars, (c == squoteCh) = false := by
  cases dt <;> decide

theorem skipSpaces_replicate (k : Nat) (rest : List Char) :
    skipSpaces (List.replicate k ' ' ++ rest) = skipSpaces rest := by
  induction k with
  | zero => rfl
  | succ k ih =>
    simp only [List.replicate_succ, List.cons_append, skipSpaces, beq_self_eq_true, if_pos,
      List.append_eq, ih]

theorem shapeSep_comma_close (x : List Char) : shapeSep (',' :: ')' :: x) = some (true, x) := rfl

theorem shapeSep_comma_space (x : List Char) : shapeSep (',' :: ' ' :: x) = some (false, x) := rfl

theorem shapeSep_close (x : List Char) : shapeSep (')' :: x) = some (true, x) := by
  rfl

theorem parseShapeNums_last (m : Nat) : ∀ fuel rest, 0 < fuel →
    parseShapeNums fuel (natChars m ++ shapeTail [] ++ rest) = some ([m], rest) := by
  intro fuel rest hf
  match fuel, hf with
  | fuel + 1, _ =>
    simp only [shapeTail, parseShapeNums, List.append_assoc, List.cons_append, List.nil_append]
    rw [readNat_natChars m _ (by intro c hc; simp at hc; subst hc; decide)]
    simp [shapeSep_close]

theorem parseShapeNums_shapeTail (sh : List Nat) : ∀ (fuel m : Nat) (rest : List Char),
    sh.length < fuel →
    parseShapeNums fuel (natChars m ++ shapeTail sh ++ rest) = some (m :: sh, rest) := by
  induction sh with
  | nil =>
    intro fuel m rest hf
    exact parseShapeNums_last m fuel rest (by omega)
  | cons k t ih =>
    intro fuel m rest hf
    match fuel, hf with
    | fuel + 1, hf2 =>
      simp only [shapeTail, parseShapeNums, List.append_assoc, List.cons_append,
        List.nil_append]
      rw [readNat_natChars m _ (by intro c hc; simp at hc; subst hc; decide)]
      simp only [shapeSep_comma_space]
      rw [show natChars k ++ (shapeTail t ++ rest) = natChars k ++ shapeTail t ++ rest by
        simp [List.append_assoc]]
      rw [ih fuel k rest (by simp only [List.length_cons] at hf2; omega)]

theorem parseShapeNums_single (n : Nat) : ∀ fuel rest, 0 < fuel →
    parseShapeNums fuel (natChars n ++ [',', ')'] ++ rest) = some ([n], rest) := by
  intro fuel rest hf
  match fuel, hf with
  | fuel + 1, _ =>
    simp only [parseShapeNums, List.append_assoc, List.cons_append, List.nil_append]
    rw [readNat_natChars n _ (by intro c hc; simp at hc; subst hc; decide)]
    simp [shapeSep_comma_close]

theorem natChars_length_pos (n : Nat) : 0 < (natChars n).length := by
  have := natCharsF_ne_nil (n + 1) n (by omega)
  rw [natChars]
  cases h : natCharsF (n + 1) n with
  | nil => exact absurd h this
  | cons c cs => simp [h]

theorem shapeTail_length_gt (sh : List Nat) : sh.length < (shapeTail sh).length := by
  induction sh with
  | nil => simp [shapeTail]
  | cons k t ih =>
    have := natChars_length_pos k
    simp only [shapeTail, List.length_cons, List.length_append]
    omega

theorem natChars_head_digit (n : Nat) :
    ∃ d ds, natChars n = d :: ds ∧ ∃ k, k < 10 ∧ d = digitCh k := by
  cases h : natChars n with
  | nil => exact absurd h (natCharsF_ne_nil (n + 1) n (by omega))
  | cons c cs =>
    refine ⟨c, cs, rfl, ?_⟩
    obtain ⟨d, hd, hcd⟩ := natCharsF_all_digits (n + 1) n c (by rw [← natChars, h]; simp)
    exact ⟨d, hd, hcd⟩

theorem digitCh_ne_close (k : Nat) (hk : k < 10) : digitCh k ≠ ')' := by
  intro h
  have h1 := toNat_digitCh k hk
  rw [h] at h1
  have h2 : Char.toNat ')' = 41 := by decide
  omega

theorem parseShape_shapeRepr (sh : List Nat) (rest : List Char) :
    parseShape (shapeRepr sh ++ rest) = some (sh, rest) := by
  match sh with
  | [] => rfl
  | [n] =>
    obtain ⟨d, ds, hnd, k, hk, hdk⟩ := natChars_head_digit n
    simp only [shapeRepr, List.cons_append, parseShape, beq_self_eq_true, if_pos]
    rw [show (natChars n ++ [',', ')']) ++ rest = natChars n ++ [',', ')'] ++ rest by
      simp [List.append_assoc]]
    rw [hnd]
    have hpos : 0 < (d :: (ds ++ [',', ')'] ++ rest)).length := by simp
    split
    · rename_i r2 heq
      exfalso
      have : d = ')' := by
        have := congrArg List.head? heq
        simpa using this
      rw [hdk] at this
      exact digitCh_ne_close k hk this
    · rw [← hnd]
      have h1 : 0 < (natChars n ++ [',', ')'] ++ rest).length := by
        rw [hnd]
        simp
      exact parseShapeNums_single n _ rest h1
  | n :: m :: t =>
    obtain ⟨d, ds, hnd, k, hk, hdk⟩ := natChars_head_digit n
    simp only [shapeRepr, List.cons_append, parseShape, beq_self_eq_true, if_pos]
    rw [show (natChars n ++ shapeTail (m :: t)) ++ rest
        = natChars n ++ shapeTail (m :: t) ++ rest by simp [List.append_assoc]]
    rw [hnd]
    split
    · rename_i r2 heq
      exfalso
      have : d = ')' := by
        have := congrArg List.head? heq
        simpa using this
      rw [hdk] at this
      exact digitCh_ne_close k hk this
    · rw [← hnd]
      have h1 : (m :: t).length < (natChars n ++ shapeTail (m :: t) ++ rest).length := by
        have h2 := shapeTail_length_gt (m :: t)
        have h3 := natChars_length_pos n
        simp only [List.length_append]
        omega
      exact parseShapeNums_shapeTail (m :: t) _ n rest h1

theorem skipSpaces_newline : skipSpaces [newlineCh] = [newlineCh] := by decide

theorem parseNpyHeader_full (dt : Dtype) (sh : List Nat) (pad : Nat) :
    parseNpyHeader (npyHeaderChars dt sh ++ (List.replicate pad ' ' ++ [newlineCh]))
      = some (dt, sh) := by
  unfold npyHeaderChars parseNpyHeader
  simp only [List.append_assoc, List.singleton_append, List.cons_append]
  rw [expectChars_append hdrPre]
  dsimp only
  rw [scanToQuote_append dt.descrChars (descrChars_no_quote dt)]
  dsimp only
  rw [descrToDtype_descrChars dt]
  dsimp only
  simp only [List.nil_append]
  rw [expectChars_append hdrMid]
  dsimp only
  rw [show shapeRepr sh ++ (hdrEnd ++ (List.replicate pad ' ' ++ [newlineCh]))
      = shapeRepr sh ++ (hdrEnd ++ (List.replicate pad ' ' ++ [newlineCh])) from rfl]
  rw [parseShape_shapeRepr sh]
  dsimp only
  rw [expectChars_append hdrEnd]
  dsimp only
  rw [skipSpaces_replicate, skipSpaces_newline]
  rfl

theorem map_ofNat_toNat (l : List Char) : (l.map Char.toNat).map Char.ofNat = l := by
  induction l with
  | nil => rfl
  | cons c cs ih => simp [Char.ofNat_toNat, ih]

/-- Round-trip of the `.npy` embedding: loading a saved array restores the
dtype, the shape and the exact data bytes (version-1.0 headers, i.e. header
length below 65536, which the codec-level encoder guarantees). -/
theorem npyLoad_npySave (dt : Dtype) (sh : List Nat) (data : List Nat)
    (hdata : data.length = sh.prod * dt.itemsize)
    (hlen : (npyHeaderFull dt sh).length < 65536) :
    npyLoad (npySave dt sh data) = some (dt, sh, data) := by
  unfold npySave npyLoad
  simp only [List.cons_append, List.nil_append]
  have hcond : ((((147 : Nat) == 147) && ((78 : Nat) == 78) && ((85 : Nat) == 85)
      && ((77 : Nat) == 77) && ((80 : Nat) == 80) && ((89 : Nat) == 89)
      && ((1 : Nat) == 1) && ((0 : Nat) == 0)) = true) := by decide
  rw [if_pos hcond]
  set full := npyHeaderFull dt sh with hfull
  have hrec : full.length % 256 + 256 * (full.length / 256 % 256) = full.length := by
    have h1 : full.length / 256 < 256 := by omega
    have h2 : full.length / 256 % 256 = full.length / 256 := Nat.mod_eq_of_lt h1
    rw [h2]
    omega
  rw [hrec]
  have hmaplen : (full.map Char.toNat).length = full.length := by simp
  have htake : (full.map Char.toNat ++ data).take full.length = full.map Char.toNat := by
    rw [← hmaplen]
    exact List.take_left _ _
  have hdrop : (full.map Char.toNat ++ data).drop full.length = data := by
    rw [← hmaplen]
    exact List.drop_left _ _
  have hle : full.length ≤ (full.map Char.toNat ++ data).length := by
    simp
  rw [if_pos hle, htake, hdrop, map_ofNat_toNat]
  have hparse : parseNpyHeader full = some (dt, sh) := by
    rw [hfull, npyHeaderFull]
    simp only [List.append_assoc]
    exact parseNpyHeader_full dt sh _
  rw [hparse]
  dsimp only
  rw [if_pos (by omega : sh.prod * dt.itemsize ≤ data.length)]
  rw [← hdata, List.take_length]

/-! ## The message model

Python values carried by `MsgSerializer` (`msgpack.packb` /
`msgpack.unpackb` with the ndarray hooks of `gr00t_client.py`): `None`,
booleans, integers, floats (by IEEE-754 bit pattern), strings, `bytes`,
lists, string-keyed dictionaries (as ordered association lists), and numpy
arrays (dtype, shape, raw row-major little-endian element bytes — the
`len(data) == prod(shape) * itemsize` invariant of a real `np.ndarray` is
carried as a side condition where needed). -/
inductive Value where
  | nil : Value
  | bool (b : Bool) : Value
  | int (i : Int) : Value
  | float (bits : Nat) : Value
  | str (s : String) : Value
  | bin (bs : List Nat) : Value
  | arr (vs : List Value) : Value
  | map (kvs : List (String × Value)) : Value
  | ndarray (dt : Dtype) (shape : List Nat) (data : List Nat) : Value

/-! ## msgpack encoding (`msgpack.packb`, `default=encode_custom_classes`) -/

/-- `msgpack.packb` on a Python `int`: smallest of fixint, uint8/16/32/64,
int8/16/32/64 (two's complement, big-endian); out of range raises. -/
def encInt (i : Int) : Option (List Nat) :=
  if 0 ≤ i ∧ i < 128 then some [i.toNat]
  else if -32 ≤ i ∧ i < 0 then some [(i + 256).toNat]
  else if 128 ≤ i ∧ i < 256 then some [204, i.toNat]
  else if -128 ≤ i ∧ i < -32 then some [208, (i + 256).toNat]
  else if 256 ≤ i ∧ i < 65536 then some (205 :: beBytes 2 i.toNat)
  else if -32768 ≤ i ∧ i < -128 then some (209 :: beBytes 2 (i + 65536).toNat)
  else if 65536 ≤ i ∧ i < 4294967296 then some (206 :: beBytes 4 i.toNat)
  else if -2147483648 ≤ i ∧ i < -32768 then some (210 :: beBytes 4 (i + 4294967296).toNat)
  else if 4294967296 ≤ i ∧ i < 18446744073709551616 then some (207 :: beBytes 8 i.toNat)
  else if -9223372036854775808 ≤ i ∧ i < -2147483648 then
    some (211 :: beBytes 8 (i + 18446744073709551616).toNat)
  else none

/-- msgpack `str` header: fixstr, str8, str16 or str32 by byte length. -/
def strHdr (len : Nat) : Option (List Nat) :=
  if len ≤ 31 then some [160 + len]
  else if len < 256 then some [217, len]
  else if len < 65536 then some (218 :: beBytes 2 len)
  else if len < 4294967296 then some (219 :: beBytes 4 len)
  else none

/-- msgpack `bin` header: bin8, bin16 or bin32 by byte length. -/
def binHdr (len : Nat) : Option (List Nat) :=
  if len < 256 then some [196, len]
  else if len < 65536 then some (197 :: beBytes 2 len)
  else if len < 4294967296 then some (198 :: beBytes 4 len)
  else none

/-- msgpack array header: fixarray, array16 or array32 by element count. -/
def arrHdr (len : Nat) : Option (List Nat) :=
  if len ≤ 15 then some [144 + len]
  else if len < 65536 then some (220 :: beBytes 2 len)
  else if len < 4294967296 then some (221 :: beBytes 4 len)
  else none

/-- msgpack map header: fixmap, map16 or map32 by entry count. -/
def mapHdr (len : Nat) : Option (List Nat) :=
  if len ≤ 15 then some [128 + len]
  else if len < 65536 then some (222 :: beBytes 2 len)
  else if len < 4294967296 then some (223 :: beBytes 4 len)
  else none

/-- msgpack encoding of a `str` value: header plus UTF-8 bytes. -/
def encStr (s : String) : Option (List Nat) :=
  (strHdr (utf8Enc s.data).length).map (fun h => h ++ utf8Enc s.data)

mutual
/-- `msgpack.packb` with `default=MsgSerializer.encode_custom_classes`:
an ndarray is replaced by the dict
`(brace)"__ndarray_class__": True, "as_npy": np.save bytes(brace)` and
packed as a two-entry map.  `none` models a raised exception (integer out
of 64-bit range, container/string/bin length overflowing the msgpack
headers, a header too large for a version-1.0 `.npy` file); the byte-range
and length side conditions on `bin`/array data hold for every value that a
real Python `bytes`/`np.ndarray` can denote. -/
def encVal : Value → Option (List Nat)
  | .nil => some [192]
  | .bool false => some [194]
  | .bool true => some [195]
  | .int i => encInt i
  | .float bits =>
    if bits < 18446744073709551616 then some (203 :: beBytes 8 bits) else none
  | .str s => encStr s
  | .bin bs =>
    if bs.all (fun b => b < 256) then (binHdr bs.length).map (fun h => h ++ bs) else none
  | .arr vs => (arrHdr vs.length).bind (fun h => (encList vs).map (fun b => h ++ b))
  | .map kvs => (mapHdr kvs.length).bind (fun h => (encMap kvs).map (fun b => h ++ b))
  | .ndarray dt sh data =>
    if data.length = sh.prod * dt.itemsize ∧ data.all (fun b => b < 256)
        ∧ (npyHeaderFull dt sh).length < 65536
        ∧ (npySave dt sh data).length < 4294967296 then
      (binHdr (npySave dt sh data).length).map (fun h =>
        [130, 177] ++ utf8Enc "__ndarray_class__".data ++ [195, 166]
          ++ utf8Enc "as_npy".data ++ h ++ npySave dt sh data)
    else none
termination_by structural v => v

/-- Concatenated encodings of a list of values. -/
def encList : List Value → Option (List Nat)
  | [] => some []
  | v :: tl =>
    match encVal v, encList tl with
    | some a, some b => some (a ++ b)
    | _, _ => none
termination_by structural vs => vs

/-- Concatenated `key value` encodings of the entries of a map. -/
def encMap : List (String × Value) → Option (List Nat)
  | [] => some []
  | (k, v) :: tl =>
    match encStr k, encVal v, encMap tl with
    | some a, some b, some c => some (a ++ b ++ c)
    | _, _, _ => none
termination_by structural kvs => kvs
end

/-! ## msgpack decoding (`msgpack.unpackb`,
`object_hook=MsgSerializer.decode_custom_classes`) -/

/-- Recognize an array or map header; returns (isMap, count, rest). -/
def arrMapHdr : List Nat → Option (Bool × Nat × List Nat)
  | b :: tl =>
    if 128 ≤ b ∧ b ≤ 143 then some (true, b - 128, tl)
    else if 144 ≤ b ∧ b ≤ 159 then some (false, b - 144, tl)
    else if b == 220 then (readBE 2 0 tl).map (fun p => (false, p.1, p.2))
    else if b == 221 then (readBE 4 0 tl).map (fun p => (false, p.1, p.2))
    else if b == 222 then (readBE 2 0 tl).map (fun p => (true, p.1, p.2))
    else if b == 223 then (readBE 4 0 tl).map (fun p => (true, p.1, p.2))
    else none
  | [] => none

/-- Split off `n` raw bytes, failing on a short buffer. -/
def takeBytes (n : Nat) (bs : List Nat) : Option (List Nat × List Nat) :=
  if n ≤ bs.length then some (bs.take n, bs.drop n) else none

/-- Read a `str` payload of `len` UTF-8 bytes. -/
def parseStr (len : Nat) (bs : List Nat) : Option (Value × List Nat) :=
  match takeBytes len bs with
  | some (sb, r) =>
    match utf8Dec sb with
    | some cs => some (.str (String.mk cs), r)
    | none => none
  | none => none

/-- Decode one non-container msgpack value off the front of the buffer. -/
def parseLeaf : List Nat → Option (Value × List Nat)
  | b :: tl =>
    if b < 128 then some (.int b, tl)
    else if 160 ≤ b ∧ b ≤ 191 then parseStr (b - 160) tl
    else if 224 ≤ b then some (.int ((b : Int) - 256), tl)
    else if b == 192 then some (.nil, tl)
    else if b == 194 then some (.bool false, tl)
    else if b == 195 then some (.bool true, tl)
    else if b == 203 then (readBE 8 0 tl).map (fun p => (.float p.1, p.2))
    else if b == 204 then
      match tl with
      | x :: r => some (.int x, r)
      | [] => none
    else if b == 205 then (readBE 2 0 tl).map (fun p => (.int p.1, p.2))
    else if b == 206 then (readBE 4 0 tl).map (fun p => (.int p.1, p.2))
    else if b == 207 then (readBE 8 0 tl).map (fun p => (.int p.1, p.2))
    else if b == 208 then
      match tl with
      | x :: r => some (.int (if x < 128 then (x : Int) else (x : Int) - 256), r)
      | [] => none
    else if b == 209 then (readBE 2 0 tl).map (fun p =>
      (.int (if p.1 < 32768 then (p.1 : Int) else (p.1 : Int) - 65536), p.2))
    else if b == 210 then (readBE 4 0 tl).map (fun p =>
      (.int (if p.1 < 2147483648 then (p.1 : Int) else (p.1 : Int) - 4294967296), p.2))
    else if b == 211 then (readBE 8 0 tl).map (fun p =>
      (.int (if p.1 < 9223372036854775808 then (p.1 : Int)
             else (p.1 : Int) - 18446744073709551616), p.2))
    else if b == 217 then
      match tl with
      | x :: r => parseStr x r
      | [] => none
    else if b == 218 then (readBE 2 0 tl).bind (fun p => parseStr p.1 p.2)
    else if b == 219 then (readBE 4 0 tl).bind (fun p => parseStr p.1 p.2)
    else if b == 196 then
      match tl with
      | x :: r => (takeBytes x r).map (fun p => (.bin p.1, p.2))
      | [] => none
    else if b == 197 then (readBE 2 0 tl).bind (fun p =>
      (takeBytes p.1 p.2).map (fun q => (.bin q.1, q.2)))
    else if b == 198 then (readBE 4 0 tl).bind (fun p =>
      (takeBytes p.1 p.2).map (fun q => (.bin q.1, q.2)))
    else none
  | [] => none

/-- `MsgSerializer.decode_custom_classes`, applied by `unpackb` to every
completed map: a map carrying the key `__ndarray_class__` is replaced by
`np.load` of its `as_npy` bytes; a missing or non-bytes `as_npy` field, or
an unparsable buffer, raises (here: `none`). -/
def hookMap (kvs : List (String × Value)) : Option Value :=
  if (kvs.lookup "__ndarray_class__").isSome then
    match kvs.lookup "as_npy" with
    | some (.bin bs) =>
      match npyLoad bs with
      | some (dt, sh, data) => some (.ndarray dt sh data)
      | none => none
    | _ => none
  else some (.map kvs)

/-- Regroup the `2 * n` decoded values of a map body into entries; a
non-string key fails (msgpack `strict_map_key`). -/
def pairUp : List Value → Option (List (String × Value))
  | [] => some []
  | .str k :: v :: tl => (pairUp tl).map (fun ps => (k, v) :: ps)
  | _ => none

/-- Fuelled decoder for `n` consecutive msgpack values.  Every recursive
call consumes at least one byte from the buffer or reduces the remaining
count, so fuel `length + 1` always suffices. -/
def parseVals : Nat → Nat → List Nat → Option (List Value × List Nat)
  | 0, _, _ => none
  | _ + 1, 0, bs => some ([], bs)
  | fuel + 1, n + 1, bs =>
    match arrMapHdr bs with
    | some (isMap, cnt, tl) =>
      match parseVals fuel (if isMap then 2 * cnt else cnt) tl with
      | some (children, r) =>
        match (if isMap then (pairUp children).bind hookMap else some (.arr children)) with
        | some v =>
          match parseVals fuel n r with
          | some (vs, r2) => some (v :: vs, r2)
          | none => none
        | none => none
      | none => none
    | none =>
      match parseLeaf bs with
      | some (v, r) =>
        match parseVals fuel n r with
        | some (vs, r2) => some (v :: vs, r2)
        | none => none
      | none => none

/-- `MsgSerializer.to_bytes`: `msgpack.packb(data,
default=MsgSerializer.encode_custom_classes)`. -/
def MsgSerializer.toBytes (v : Value) : Option (List Nat) := encVal v

/-- `MsgSerializer.from_bytes`: `msgpack.unpackb(data,
object_hook=MsgSerializer.decode_custom_classes)`.  The error strings model
the msgpack library's `ValueError` messages (the library distinguishes more
failure cases than the two modelled here; no message ever reads
`malformed request`). -/
def MsgSerializer.fromBytes (bs : List Nat) : Except String Value :=
  match parseVals (bs.length + 1) 1 bs with
  | some ([v], []) => .ok v
  | some (_, _ :: _) => .error "unpack(b) received extra data."
  | _ => .error "Unpack failed: incomplete input"

/-- The map entries flattened to the `key, value, key, value, ...` stream
in which a msgpack map body is transmitted. -/
def flattenMap : List (String × Value) → List Value
  | [] => []
  | (k, v) :: tl => Value.str k :: v :: flattenMap tl

mutual
/-- No mapping anywhere inside the value uses the key `__ndarray_class__`,
which this codec reserves as its in-band array marker. -/
def noResV : Value → Bool
  | .arr vs => noResL vs
  | .map kvs => (kvs.lookup "__ndarray_class__").isNone && noResM kvs
  | _ => true
termination_by structural v => v

/-- `noResV` over a list of values. -/
def noResL : List Value → Bool
  | [] => true
  | v :: tl => noResV v && noResL tl
termination_by structural vs => vs

/-- `noResV` over the values of a map. -/
def noResM : List (String × Value) → Bool
  | [] => true
  | (_, v) :: tl => noResV v && noResM tl
termination_by structural kvs => kvs
end

theorem takeBytes_exact (xs : List Nat) (rest : List Nat) :
    takeBytes xs.length (xs ++ rest) = some (xs, rest) := by
  rw [takeBytes, if_pos (by simp), List.take_left, List.drop_left]

theorem parseStr_enc (s : String) (rest : List Nat) :
    parseStr (utf8Enc s.data).length (utf8Enc s.data ++ rest) = some (.str s, rest) := by
  rw [parseStr, takeBytes_exact]
  dsimp only
  rw [utf8Dec_utf8Enc]

theorem arrMapHdr_not (b : Nat) (X : List Nat)
    (h1 : ¬ (128 ≤ b ∧ b ≤ 143)) (h2 : ¬ (144 ≤ b ∧ b ≤ 159))
    (h3 : b ≠ 220) (h4 : b ≠ 221) (h5 : b ≠ 222) (h6 : b ≠ 223) :
    arrMapHdr (b :: X) = none := by
  simp only [arrMapHdr, if_neg h1, if_neg h2]
  simp [h3, h4, h5, h6]

theorem arrMapHdr_arrHdr (len : Nat) (h : List Nat) (X : List Nat)
    (henc : arrHdr len = some h) : arrMapHdr (h ++ X) = some (false, len, X) := by
  rw [arrHdr] at henc
  split at henc
  · rename_i hle
    cases henc
    have c1 : ¬ (128 ≤ 144 + len ∧ 144 + len ≤ 143) := by omega
    have c2 : 144 ≤ 144 + len ∧ 144 + len ≤ 159 := by omega
    simp only [List.cons_append, List.nil_append, arrMapHdr, if_neg c1, if_pos c2]
    rw [show 144 + len - 144 = len from by omega]
  · split at henc
    · rename_i hle2
      cases henc
      have c1 : ¬ (128 ≤ 220 ∧ (220 : Nat) ≤ 143) := by omega
      have c2 : ¬ (144 ≤ 220 ∧ (220 : Nat) ≤ 159) := by omega
      simp only [List.cons_append, arrMapHdr, if_neg c1, if_neg c2, beq_self_eq_true, if_pos]
      rw [readBE_beBytes 2 0 len X (by norm_num; omega)]
      simp
    · split at henc
      · rename_i hle3
        cases henc
        have c1 : ¬ (128 ≤ 221 ∧ (221 : Nat) ≤ 143) := by omega
        have c2 : ¬ (144 ≤ 221 ∧ (221 : Nat) ≤ 159) := by omega
        have c3 : ((221 : Nat) == 220) = false := by decide
        simp only [List.cons_append, arrMapHdr, if_neg c1, if_neg c2, c3, Bool.false_eq_true,
          if_false, beq_self_eq_true, if_pos]
        rw [readBE_beBytes 4 0 len X (by norm_num; omega)]
        simp
      · cases henc

theorem arrMapHdr_mapHdr (len : Nat) (h : List Nat) (X : List Nat)
    (henc : mapHdr len = some h) : arrMapHdr (h ++ X) = some (true, len, X) := by
  rw [mapHdr] at henc
  split at henc
  · rename_i hle
    cases henc
    have c1 : 128 ≤ 128 + len ∧ 128 + len ≤ 143 := by omega
    simp only [List.cons_append, List.nil_append, arrMapHdr, if_pos c1]
    rw [show 128 + len - 128 = len from by omega]
  · split at henc
    · rename_i hle2
      cases henc
      have c1 : ¬ (128 ≤ 222 ∧ (222 : Nat) ≤ 143) := by omega
      have c2 : ¬ (144 ≤ 222 ∧ (222 : Nat) ≤ 159) := by omega
      have c3 : ((222 : Nat) == 220) = false := by decide
      have c4 : ((222 : Nat) == 221) = false := by decide
      simp only [List.cons_append, arrMapHdr, if_neg c1, if_neg c2, c3, c4, Bool.false_eq_true,
        if_false, beq_self_eq_true, if_pos]
      rw [readBE_beBytes 2 0 len X (by norm_num; omega)]
      simp
    · split at henc
      · rename_i hle3
        cases henc
        have c1 : ¬ (128 ≤ 223 ∧ (223 : Nat) ≤ 143) := by omega
        have c2 : ¬ (144 ≤ 223 ∧ (223 : Nat) ≤ 159) := by omega
        have c3 : ((223 : Nat) == 220) = false := by decide
        have c4 : ((223 : Nat) == 221) = false := by decide
        have c5 : ((223 : Nat) == 222) = false := by decide
        simp only [List.cons_append, arrMapHdr, if_neg c1, if_neg c2, c3, c4, c5,
          Bool.false_eq_true, if_false, beq_self_eq_true, if_pos]
        rw [readBE_beBytes 4 0 len X (by norm_num; omega)]
        simp
      · cases henc

theorem step_simple (b : Nat) (v : Value) (X : List Nat)
    (hb : b = 192 ∧ v = .nil ∨ b = 194 ∧ v = .bool false ∨ b = 195 ∧ v = .bool true) :
    arrMapHdr (b :: X) = none ∧ parseLeaf (b :: X) = some (v, X) := by
  rcases hb with ⟨hb, hv⟩ | ⟨hb, hv⟩ | ⟨hb, hv⟩ <;> subst hb <;> subst hv <;>
    exact ⟨by simp [arrMapHdr], by simp [parseLeaf]⟩

theorem step_float (bits : Nat) (X : List Nat) (h : bits < 18446744073709551616) :
    arrMapHdr (203 :: beBytes 8 bits ++ X) = none ∧
      parseLeaf (203 :: beBytes 8 bits ++ X) = some (.float bits, X) := by
  constructor
  · simp [arrMapHdr]
  · have hc : ((203 : Nat) == 192) = false := by decide
    simp only [parseLeaf, List.cons_append]
    rw [if_neg (by omega), if_neg (by omega), if_neg (by omega)]
    simp only [show ((203 : Nat) == 192) = false from by decide, Bool.false_eq_true, if_false,
      show ((203 : Nat) == 194) = false from by decide,
      show ((203 : Nat) == 195) = false from by decide,
      beq_self_eq_true, if_pos]
    rw [readBE_beBytes 8 0 bits X (by norm_num; omega)]
    simp

theorem step_int (i : Int) (a : List Nat) (X : List Nat) (henc : encInt i = some a) :
    arrMapHdr (a ++ X) = none ∧ parseLeaf (a ++ X) = some (.int i, X) := by
  rw [encInt] at henc
  split at henc
  · rename_i hr
    cases henc
    refine ⟨arrMapHdr_not _ _ (by omega) (by omega) (by omega) (by omega) (by omega) (by omega),
      ?_⟩
    simp only [List.cons_append, List.nil_append, parseLeaf]
    rw [if_pos (by omega : i.toNat < 128)]
    rw [show ((i.toNat : Int)) = i from by omega]
  · split at henc
    · rename_i hr
      cases henc
      refine ⟨arrMapHdr_not _ _ (by omega) (by omega) (by omega) (by omega) (by omega)
        (by omega), ?_⟩
      simp only [List.cons_append, List.nil_append, parseLeaf]
      rw [if_neg (by omega), if_neg (by omega), if_pos (by omega : 224 ≤ (i + 256).toNat)]
      rw [show ((((i + 256).toNat : Int)) - 256) = i from by omega]
    · split at henc
      · rename_i hr
        cases henc
        refine ⟨by simp [arrMapHdr], ?_⟩
        simp only [List.cons_append, List.nil_append, parseLeaf]
        rw [if_neg (by norm_num), if_neg (by norm_num), if_neg (by norm_num)]
        simp only [show ((204 : Nat) == 192) = false from by decide, Bool.false_eq_true, if_false,
          show ((204 : Nat) == 194) = false from by decide,
          show ((204 : Nat) == 195) = false from by decide,
          show ((204 : Nat) == 203) = false from by decide,
          beq_self_eq_true, if_pos]
        rw [show ((i.toNat : Int)) = i from by omega]
      · split at henc
        · rename_i hr
          cases henc
          refine ⟨by simp [arrMapHdr], ?_⟩
          simp only [List.cons_append, List.nil_append, parseLeaf]
          rw [if_neg (by norm_num), if_neg (by norm_num), if_neg (by norm_num)]
          simp only [show ((208 : Nat) == 192) = false from by decide, Bool.false_eq_true,
            if_false,
            show ((208 : Nat) == 194) = false from by decide,
            show ((208 : Nat) == 195) = false from by decide,
            show ((208 : Nat) == 203) = false from by decide,
            show ((208 : Nat) == 204) = false from by decide,
            show ((208 : Nat) == 205) = false from by decide,
            show ((208 : Nat) == 206) = false from by decide,
            show ((208 : Nat) == 207) = false from by decide,
            beq_self_eq_true, if_pos]
          rw [if_neg (by omega : ¬ ((i + 256).toNat < 128))]
          rw [show ((((i + 256).toNat : Int)) - 256) = i from by omega]
        · split at henc
          · rename_i hr
            cases henc
            refine ⟨by simp [arrMapHdr], ?_⟩
            simp only [List.cons_append, parseLeaf]
            rw [if_neg (by norm_num), if_neg (by norm_num), if_neg (by norm_num)]
            simp only [show ((205 : Nat) == 192) = false from by decide, Bool.false_eq_true,
              if_false,
              show ((205 : Nat) == 194) = false from by decide,
              show ((205 : Nat) == 195) = false from by decide,
              show ((205 : Nat) == 203) = false from by decide,
              show ((205 : Nat) == 204) = false from by decide,
              beq_self_eq_true, if_pos]
            rw [readBE_beBytes 2 0 i.toNat X (by norm_num; omega)]
            simp only [Option.map_some', Nat.zero_mul, Nat.zero_add]
            rw [show ((i.toNat : Int)) = i from by omega]
          · split at henc
            · rename_i hr
              cases henc
              refine ⟨by simp [arrMapHdr], ?_⟩
              simp only [List.cons_append, parseLeaf]
              rw [if_neg (by norm_num), if_neg (by norm_num), if_neg (by norm_num)]
              simp only [show ((209 : Nat) == 192) = false from by decide, Bool.false_eq_true,
                if_false,
                show ((209 : Nat) == 194) = false from by decide,
                show ((209 : Nat) == 195) = false from by decide,
                show ((209 : Nat) == 203) = false from by decide,
                show ((209 : Nat) == 204) = false from by decide,
                show ((209 : Nat) == 205) = false from by decide,
                show ((209 : Nat) == 206) = false from by decide,
                show ((209 : Nat) == 207) = false from by decide,
                show ((209 : Nat) == 208) = false from by decide,
                beq_self_eq_true, if_pos]
              rw [readBE_beBytes 2 0 (i + 65536).toNat X (by norm_num; omega)]
              simp only [Option.map_some', Nat.zero_mul, Nat.zero_add]
              rw [if_neg (by omega : ¬ ((i + 65536).toNat < 32768))]
              rw [show ((((i + 65536).toNat : Int)) - 65536) = i from by omega]
            · split at henc
              · rename_i hr
                cases henc
                refine ⟨by simp [arrMapHdr], ?_⟩
                simp only [List.cons_append, parseLeaf]
                rw [if_neg (by norm_num), if_neg (by norm_num), if_neg (by norm_num)]
                simp only [show ((206 : Nat) == 192) = false from by decide, Bool.false_eq_true,
                  if_false,
                  show ((206 : Nat) == 194) = false from by decide,
                  show ((206 : Nat) == 195) = false from by decide,
                  show ((206 : Nat) == 203) = false from by decide,
                  show ((206 : Nat) == 204) = false from by decide,
                  show ((206 : Nat) == 205) = false from by decide,
                  beq_self_eq_true, if_pos]
                rw [readBE_beBytes 4 0 i.toNat X (by norm_num; omega)]
                simp only [Option.map_some', Nat.zero_mul, Nat.zero_add]
                rw [show ((i.toNat : Int)) = i from by omega]
              · split at henc
                · rename_i hr
                  cases henc
                  refine ⟨by simp [arrMapHdr], ?_⟩
                  simp only [List.cons_append, parseLeaf]
                  rw [if_neg (by norm_num), if_neg (by norm_num), if_neg (by norm_num)]
                  simp only [show ((210 : Nat) == 192) = false from by decide,
                    Bool.false_eq_true, if_false,
                    show ((210 : Nat) == 194) = false from by decide,
                    show ((210 : Nat) == 195) = false from by decide,
                    show ((210 : Nat) == 203) = false from by decide,
                    show ((210 : Nat) == 204) = false from by decide,
                    show ((210 : Nat) == 205) = false from by decide,
                    show ((210 : Nat) == 206) = false from by decide,
                    show ((210 : Nat) == 207) = false from by decide,
                    show ((210 : Nat) == 208) = false from by decide,
                    show ((210 : Nat) == 209) = false from by decide,
                    beq_self_eq_true, if_pos]
                  rw [readBE_beBytes 4 0 (i + 4294967296).toNat X (by norm_num; omega)]
                  simp only [Option.map_some', Nat.zero_mul, Nat.zero_add]
                  rw [if_neg (by omega : ¬ ((i + 4294967296).toNat < 2147483648))]
                  rw [show ((((i + 4294967296).toNat : Int)) - 4294967296) = i from by omega]
                · split at henc
                  · rename_i hr
                    cases henc
                    refine ⟨by simp [arrMapHdr], ?_⟩
                    simp only [List.cons_append, parseLeaf]
                    rw [if_neg (by norm_num), if_neg (by norm_num), if_neg (by norm_num)]
                    simp only [show ((207 : Nat) == 192) = false from by decide,
                      Bool.false_eq_true, if_false,
                      show ((207 : Nat) == 194) = false from by decide,
                      show ((207 : Nat) == 195) = false from by decide,
                      show ((207 : Nat) == 203) = false from by decide,
                      show ((207 : Nat) == 204) = false from by decide,
                      show ((207 : Nat) == 205) = false from by decide,
                      show ((207 : Nat) == 206) = false from by decide,
                      beq_self_eq_true, if_pos]
                    rw [readBE_beBytes 8 0 i.toNat X (by norm_num; omega)]
                    simp only [Option.map_some', Nat.zero_mul, Nat.zero_add]
                    rw [show ((i.toNat : Int)) = i from by omega]
                  · split at henc
                    · rename_i hr
                      cases henc
                      refine ⟨by simp [arrMapHdr], ?_⟩
                      simp only [List.cons_append, parseLeaf]
                      rw [if_neg (by norm_num), if_neg (by norm_num), if_neg (by norm_num)]
                      simp only [show ((211 : Nat) == 192) = false from by decide,
                        Bool.false_eq_true, if_false,
                        show ((211 : Nat) == 194) = false from by decide,
                        show ((211 : Nat) == 195) = false from by decide,
                        show ((211 : Nat) == 203) = false from by decide,
                        show ((211 : Nat) == 204) = false from by decide,
                        show ((211 : Nat) == 205) = false from by decide,
                        show ((211 : Nat) == 206) = false from by decide,
                        show ((211 : Nat) == 207) = false from by decide,
                        show ((211 : Nat) == 208) = false from by decide,
                        show ((211 : Nat) == 209) = false from by decide,
                        show ((211 : Nat) == 210) = false from by decide,
                        beq_self_eq_true, if_pos]
                      rw [readBE_beBytes 8 0 (i + 18446744073709551616).toNat X
                        (by norm_num; omega)]
                      simp only [Option.map_some', Nat.zero_mul, Nat.zero_add]
                      rw [if_neg
                        (by omega : ¬ ((i + 18446744073709551616).toNat < 9223372036854775808))]
                      rw [show ((((i + 18446744073709551616).toNat : Int)) - 18446744073709551616) = i from by omega]
                    · cases henc

theorem step_str (s : String) (a : List Nat) (X : List Nat) (henc : encStr s = some a) :
    arrMapHdr (a ++ X) = none ∧ parseLeaf (a ++ X) = some (.str s, X) := by
  rw [encStr] at henc
  cases hh : strHdr (utf8Enc s.data).length with
  | none => rw [hh] at henc; cases henc
  | some h =>
    rw [hh] at henc
    simp only [Option.map_some', Option.some.injEq] at henc
    subst henc
    rw [strHdr] at hh
    split at hh
    · rename_i hle
      cases hh
      refine ⟨arrMapHdr_not _ _ (by omega) (by omega) (by omega) (by omega) (by omega)
        (by omega), ?_⟩
      simp only [List.cons_append, List.nil_append, List.append_assoc, parseLeaf]
      rw [if_neg (by omega),
        if_pos (by omega : 160 ≤ 160 + (utf8Enc s.data).length
          ∧ 160 + (utf8Enc s.data).length ≤ 191),
        show 160 + (utf8Enc s.data).length - 160 = (utf8Enc s.data).length from by omega]
      exact parseStr_enc s X
    · split at hh
      · rename_i hle2
        cases hh
        refine ⟨by simp [arrMapHdr], ?_⟩
        simp only [List.cons_append, List.nil_append, List.append_assoc]
        simp only [parseLeaf]
        rw [if_neg (by norm_num), if_neg (by norm_num), if_neg (by norm_num)]
        simp only [show ((217 : Nat) == 192) = false from by decide, Bool.false_eq_true,
          if_false,
          show ((217 : Nat) == 194) = false from by decide,
          show ((217 : Nat) == 195) = false from by decide,
          show ((217 : Nat) == 203) = false from by decide,
          show ((217 : Nat) == 204) = false from by decide,
          show ((217 : Nat) == 205) = false from by decide,
          show ((217 : Nat) == 206) = false from by decide,
          show ((217 : Nat) == 207) = false from by decide,
          show ((217 : Nat) == 208) = false from by decide,
          show ((217 : Nat) == 209) = false from by decide,
          show ((217 : Nat) == 210) = false from by decide,
          show ((217 : Nat) == 211) = false from by decide,
          beq_self_eq_true, if_pos]
        exact parseStr_enc s X
      · split at hh
        · rename_i hle3
          cases hh
          refine ⟨by simp [arrMapHdr], ?_⟩
          simp only [List.cons_append, List.nil_append, List.append_assoc]
          simp only [parseLeaf]
          rw [if_neg (by norm_num), if_neg (by norm_num), if_neg (by norm_num)]
          simp only [show ((218 : Nat) == 192) = false from by decide, Bool.false_eq_true,
            if_false,
            show ((218 : Nat) == 194) = false from by decide,
            show ((218 : Nat) == 195) = false from by decide,
            show ((218 : Nat) == 203) = false from by decide,
            show ((218 : Nat) == 204) = false from by decide,
            show ((218 : Nat) == 205) = false from by decide,
            show ((218 : Nat) == 206) = false from by decide,
            show ((218 : Nat) == 207) = false from by decide,
            show ((218 : Nat) == 208) = false from by decide,
            show ((218 : Nat) == 209) = false from by decide,
            show ((218 : Nat) == 210) = false from by decide,
            show ((218 : Nat) == 211) = false from by decide,
            show ((218 : Nat) == 217) = false from by decide,
            beq_self_eq_true, if_pos]
          rw [readBE_beBytes 2 0 (utf8Enc s.data).length (utf8Enc s.data ++ X)
            (by norm_num; omega)]
          simp only [Option.some_bind, Nat.zero_mul, Nat.zero_add]
          exact parseStr_enc s X
        · split at hh
          · rename_i hle4
            cases hh
            refine ⟨by simp [arrMapHdr], ?_⟩
            simp only [List.cons_append, List.nil_append, List.append_assoc]
            simp only [parseLeaf]
            rw [if_neg (by norm_num), if_neg (by norm_num), if_neg (by norm_num)]
            simp only [show ((219 : Nat) == 192) = false from by decide, Bool.false_eq_true,
              if_false,
              show ((219 : Nat) == 194) = false from by decide,
              show ((219 : Nat) == 195) = false from by decide,
              show ((219 : Nat) == 203) = false from by decide,
              show ((219 : Nat) == 204) = false from by decide,
              show ((219 : Nat) == 205) = false from by decide,
              show ((219 : Nat) == 206) = false from by decide,
              show ((219 : Nat) == 207) = false from by decide,
              show ((219 : Nat) == 208) = false from by decide,
              show ((219 : Nat) == 209) = false from by decide,
              show ((219 : Nat) == 210) = false from by decide,
              show ((219 : Nat) == 211) = false from by decide,
              show ((219 : Nat) == 217) = false from by decide,
              show ((219 : Nat) == 218) = false from by decide,
              beq_self_eq_true, if_pos]
            rw [readBE_beBytes 4 0 (utf8Enc s.data).length (utf8Enc s.data ++ X)
              (by norm_num; omega)]
            simp only [Option.some_bind, Nat.zero_mul, Nat.zero_add]
            exact parseStr_enc s X
          · cases hh

theorem step_bin (bs : List Nat) (a : List Nat) (X : List Nat)
    (henc : (binHdr bs.length).map (fun h => h ++ bs) = some a) :
    arrMapHdr (a ++ X) = none ∧ parseLeaf (a ++ X) = some (.bin bs, X) := by
  cases hh : binHdr bs.length with
  | none => rw [hh] at henc; cases henc
  | some h =>
    rw [hh] at henc
    simp only [Option.map_some', Option.some.injEq] at henc
    subst henc
    rw [binHdr] at hh
    split at hh
    · rename_i hle
      cases hh
      refine ⟨by simp [arrMapHdr], ?_⟩
      simp only [List.cons_append, List.nil_append, List.append_assoc]
      simp only [parseLeaf]
      rw [if_neg (by norm_num), if_neg (by norm_num), if_neg (by norm_num)]
      simp only [show ((196 : Nat) == 192) = false from by decide, Bool.false_eq_true,
        if_false,
        show ((196 : Nat) == 194) = false from by decide,
        show ((196 : Nat) == 195) = false from by decide,
        show ((196 : Nat) == 203) = false from by decide,
        show ((196 : Nat) == 204) = false from by decide,
        show ((196 : Nat) == 205) = false from by decide,
        show ((196 : Nat) == 206) = false from by decide,
        show ((196 : Nat) == 207) = false from by decide,
        show ((196 : Nat) == 208) = false from by decide,
        show ((196 : Nat) == 209) = false from by decide,
        show ((196 : Nat) == 210) = false from by decide,
        show ((196 : Nat) == 211) = false from by decide,
        show ((196 : Nat) == 217) = false from by decide,
        show ((196 : Nat) == 218) = false from by decide,
        show ((196 : Nat) == 219) = false from by decide,
        beq_self_eq_true, if_pos]
      rw [takeBytes_exact bs X]
      rfl
    · split at hh
      · rename_i hle2
        cases hh
        refine ⟨by simp [arrMapHdr], ?_⟩
        simp only [List.cons_append, List.nil_append, List.append_assoc]
        simp only [parseLeaf]
        rw [if_neg (by norm_num), if_neg (by norm_num), if_neg (by norm_num)]
        simp only [show ((197 : Nat) == 192) = false from by decide, Bool.false_eq_true,
          if_false,
          show ((197 : Nat) == 194) = false from by decide,
          show ((197 : Nat) == 195) = false from by decide,
          show ((197 : Nat) == 203) = false from by decide,
          show ((197 : Nat) == 204) = false from by decide,
          show ((197 : Nat) == 205) = false from by decide,
          show ((197 : Nat) == 206) = false from by decide,
          show ((197 : Nat) == 207) = false from by decide,
          show ((197 : Nat) == 208) = false from by decide,
          show ((197 : Nat) == 209) = false from by decide,
          show ((197 : Nat) == 210) = false from by decide,
          show ((197 : Nat) == 211) = false from by decide,
          show ((197 : Nat) == 217) = false from by decide,
          show ((197 : Nat) == 218) = false from by decide,
          show ((197 : Nat) == 219) = false from by decide,
          show ((197 : Nat) == 196) = false from by decide,
          beq_self_eq_true, if_pos]
        rw [readBE_beBytes 2 0 bs.length (bs ++ X) (by norm_num; omega)]
        simp only [Option.some_bind, Nat.zero_mul, Nat.zero_add]
        rw [takeBytes_exact bs X]
        rfl
      · split at hh
        · rename_i hle3
          cases hh
          refine ⟨by simp [arrMapHdr], ?_⟩
          simp only [List.cons_append, List.nil_append, List.append_assoc]
          simp only [parseLeaf]
          rw [if_neg (by norm_num), if_neg (by norm_num), if_neg (by norm_num)]
          simp only [show ((198 : Nat) == 192) = false from by decide, Bool.false_eq_true,
            if_false,
            show ((198 : Nat) == 194) = false from by decide,
            show ((198 : Nat) == 195) = false from by decide,
            show ((198 : Nat) == 203) = false from by decide,
            show ((198 : Nat) == 204) = false from by decide,
            show ((198 : Nat) == 205) = false from by decide,
            show ((198 : Nat) == 206) = false from by decide,
            show ((198 : Nat) == 207) = false from by decide,
            show ((198 : Nat) == 208) = false from by decide,
            show ((198 : Nat) == 209) = false from by decide,
            show ((198 : Nat) == 210) = false from by decide,
            show ((198 : Nat) == 211) = false from by decide,
            show ((198 : Nat) == 217) = false from by decide,
            show ((198 : Nat) == 218) = false from by decide,
            show ((198 : Nat) == 219) = false from by decide,
            show ((198 : Nat) == 196) = false from by decide,
            show ((198 : Nat) == 197) = false from by decide,
            beq_self_eq_true, if_pos]
          rw [readBE_beBytes 4 0 bs.length (bs ++ X) (by norm_num; omega)]
          simp only [Option.some_bind, Nat.zero_mul, Nat.zero_add]
          rw [takeBytes_exact bs X]
          rfl
        · cases hh

theorem encInt_pos (i : Int) (a : List Nat) (h : encInt i = some a) : 0 < a.length := by
  rw [encInt] at h
  repeat' split at h
  all_goals (try cases h) <;> simp [beBytes_length]

theorem strHdr_pos (len : Nat) (h : List Nat) (hh : strHdr len = some h) : 0 < h.length := by
  rw [strHdr] at hh
  repeat' split at hh
  all_goals (try cases hh) <;> simp [beBytes_length]

theorem binHdr_pos (len : Nat) (h : List Nat) (hh : binHdr len = some h) : 0 < h.length := by
  rw [binHdr] at hh
  repeat' split at hh
  all_goals (try cases hh) <;> simp [beBytes_length]

theorem arrHdr_pos (len : Nat) (h : List Nat) (hh : arrHdr len = some h) : 0 < h.length := by
  rw [arrHdr] at hh
  repeat' split at hh
  all_goals (try cases hh) <;> simp [beBytes_length]

theorem mapHdr_pos (len : Nat) (h : List Nat) (hh : mapHdr len = some h) : 0 < h.length := by
  rw [mapHdr] at hh
  repeat' split at hh
  all_goals (try cases hh) <;> simp [beBytes_length]

theorem encVal_pos (v : Value) (a : List Nat) (h : encVal v = some a) : 0 < a.length := by
  cases v with
  | nil => cases h; simp
  | bool b => cases b <;> (cases h; simp)
  | int i => exact encInt_pos i a h
  | float bits =>
    rw [encVal] at h
    split at h
    · cases h; simp
    · cases h
  | str s =>
    rw [encVal, encStr] at h
    cases hh : strHdr (utf8Enc s.data).length with
    | none => rw [hh] at h; cases h
    | some hd =>
      rw [hh] at h
      simp only [Option.map_some', Option.some.injEq] at h
      subst h
      have := strHdr_pos _ _ hh
      simp
      omega
  | bin bs =>
    rw [encVal] at h
    split at h
    · cases hh : binHdr bs.length with
      | none => rw [hh] at h; cases h
      | some hd =>
        rw [hh] at h
        simp only [Option.map_some', Option.some.injEq] at h
        subst h
        have := binHdr_pos _ _ hh
        simp
        omega
    · cases h
  | arr vs =>
    rw [encVal] at h
    cases hh : arrHdr vs.length with
    | none => rw [hh] at h; cases h
    | some hd =>
      rw [hh] at h
      cases hl : encList vs with
      | none => rw [hl] at h; cases h
      | some body =>
        rw [hl] at h
        simp only [Option.some_bind, Option.map_some', Option.some.injEq] at h
        subst h
        have := arrHdr_pos _ _ hh
        simp
        omega
  | map kvs =>
    rw [encVal] at h
    cases hh : mapHdr kvs.length with
    | none => rw [hh] at h; cases h
    | some hd =>
      rw [hh] at h
      cases hl : encMap kvs with
      | none => rw [hl] at h; cases h
      | some body =>
        rw [hl] at h
        simp only [Option.some_bind, Option.map_some', Option.some.injEq] at h
        subst h
        have := mapHdr_pos _ _ hh
        simp
        omega
  | ndarray dt sh data =>
    rw [encVal] at h
    split at h
    · cases hh : binHdr (npySave dt sh data).length with
      | none => rw [hh] at h; cases h
      | some hd =>
        rw [hh] at h
        simp only [Option.map_some', Option.some.injEq] at h
        subst h
        simp
    · cases h

theorem encList_cons_inv (v : Value) (tl : List Value) (bs : List Nat)
    (h : encList (v :: tl) = some bs) :
    ∃ a b, encVal v = some a ∧ encList tl = some b ∧ bs = a ++ b := by
  rw [encList] at h
  cases hv : encVal v with
  | none => rw [hv] at h; cases h
  | some a =>
    cases ht : encList tl with
    | none => rw [hv, ht] at h; cases h
    | some b =>
      rw [hv, ht] at h
      simp only [Option.some.injEq] at h
      exact ⟨a, b, rfl, rfl, h.symm⟩

theorem encMap_flatten (kvs : List (String × Value)) :
    encMap kvs = encList (flattenMap kvs) := by
  induction kvs with
  | nil => rfl
  | cons kv tl ih =>
    obtain ⟨k, v⟩ := kv
    rw [flattenMap, encMap, ih]
    show _ = encList (Value.str k :: v :: flattenMap tl)
    rw [encList, encList]
    rw [show encVal (Value.str k) = encStr k from rfl]
    cases encStr k <;> cases encVal v <;> cases encList (flattenMap tl) <;>
      simp [List.append_assoc]

theorem flattenMap_length (kvs : List (String × Value)) :
    (flattenMap kvs).length = 2 * kvs.length := by
  induction kvs with
  | nil => rfl
  | cons kv tl ih =>
    obtain ⟨k, v⟩ := kv
    simp only [flattenMap, List.length_cons, ih]
    omega

theorem pairUp_flatten (kvs : List (String × Value)) :
    pairUp (flattenMap kvs) = some kvs := by
  induction kvs with
  | nil => rfl
  | cons kv tl ih =>
    obtain ⟨k, v⟩ := kv
    rw [flattenMap, pairUp, ih]
    rfl

theorem noResL_flatten (kvs : List (String × Value)) (h : noResM kvs = true) :
    noResL (flattenMap kvs) = true := by
  induction kvs with
  | nil => rfl
  | cons kv tl ih =>
    obtain ⟨k, v⟩ := kv
    rw [noResM] at h
    simp only [Bool.and_eq_true] at h
    rw [flattenMap, noResL, noResL]
    simp [show noResV (Value.str k) = true from rfl, h.1, ih h.2]

theorem hookMap_no_reserved (kvs : List (String × Value))
    (h : (kvs.lookup "__ndarray_class__").isNone = true) :
    hookMap kvs = some (.map kvs) := by
  rw [hookMap, if_neg]
  simp only [Option.isNone_iff_eq_none] at h
  simp [h]

theorem parseVals_leaf (fuel n : Nat) (v : Value) (a X : List Nat) (vs : List Value)
    (r2 : List Nat) (hno : arrMapHdr (a ++ X) = none)
    (hleaf : parseLeaf (a ++ X) = some (v, X))
    (hrec : parseVals fuel n X = some (vs, r2)) :
    parseVals (fuel + 1) (n + 1) (a ++ X) = some (v :: vs, r2) := by
  simp only [parseVals, hno, hleaf, hrec]

theorem parseVals_container (fuel n : Nat) (isMap : Bool) (cnt : Nat) (v : Value)
    (children vs : List Value) (hd Y X r2 : List Nat)
    (hhdr : arrMapHdr (hd ++ Y) = some (isMap, cnt, Y))
    (hkids : parseVals fuel (if isMap then 2 * cnt else cnt) Y = some (children, X))
    (hhook : (if isMap then (pairUp children).bind hookMap else some (.arr children))
      = some v)
    (hrec : parseVals fuel n X = some (vs, r2)) :
    parseVals (fuel + 1) (n + 1) (hd ++ Y) = some (v :: vs, r2) := by
  simp only [parseVals, hhdr, hkids, hhook, hrec]

theorem encList_ndarray_inner (npy hd2 : List Nat)
    (hall : npy.all (fun b => b < 256) = true)
    (hh : binHdr npy.length = some hd2) :
    encList [.str "__ndarray_class__", .bool true, .str "as_npy", .bin npy]
      = some ((177 :: utf8Enc "__ndarray_class__".data) ++ [195]
          ++ ((166 :: utf8Enc "as_npy".data) ++ (hd2 ++ npy))) := by
  have h1 : encVal (.str "__ndarray_class__")
      = some (177 :: utf8Enc "__ndarray_class__".data) := rfl
  have h2 : encVal (.bool true) = some [195] := rfl
  have h3 : encVal (.str "as_npy") = some (166 :: utf8Enc "as_npy".data) := rfl
  have h4 : encVal (.bin npy) = some (hd2 ++ npy) := by
    rw [encVal, if_pos hall, hh]
    rfl
  rw [encList, h1, encList, h2, encList, h3, encList, h4, encList]
  simp [List.append_assoc]

theorem natChars_toNat_lt (n : Nat) : ∀ c ∈ natChars n, c.toNat < 256 := by
  intro c hc
  obtain ⟨d, hd, hcd⟩ := natCharsF_all_digits (n + 1) n c hc
  rw [hcd, toNat_digitCh d hd]
  omega

theorem shapeTail_toNat_lt (sh : List Nat) : ∀ c ∈ shapeTail sh, c.toNat < 256 := by
  induction sh with
  | nil => decide
  | cons m t ih =>
    intro c hc
    simp only [shapeTail, List.mem_cons, List.mem_append] at hc
    rcases hc with rfl | rfl | hc | hc
    · decide
    · decide
    · exact natChars_toNat_lt m c hc
    · exact ih c hc

theorem all_lt_append {l1 l2 : List Char} (h1 : ∀ c ∈ l1, c.toNat < 256)
    (h2 : ∀ c ∈ l2, c.toNat < 256) : ∀ c ∈ l1 ++ l2, c.toNat < 256 := by
  intro c hc
  rcases List.mem_append.mp hc with h | h
  · exact h1 c h
  · exact h2 c h

theorem shapeRepr_toNat_lt (sh : List Nat) : ∀ c ∈ shapeRepr sh, c.toNat < 256 := by
  match sh with
  | [] => decide
  | [n] =>
    intro c hc
    rcases List.mem_cons.mp hc with rfl | hc
    · decide
    · exact all_lt_append (natChars_toNat_lt n) (by decide) c hc
  | n :: m :: t =>
    intro c hc
    rcases List.mem_cons.mp hc with rfl | hc
    · decide
    · exact all_lt_append (natChars_toNat_lt n) (shapeTail_toNat_lt (m :: t)) c hc

theorem npyHeaderFull_toNat_lt (dt : Dtype) (sh : List Nat) :
    ∀ c ∈ npyHeaderFull dt sh, c.toNat < 256 := by
  have hpre : ∀ c ∈ hdrPre, c.toNat < 256 := by decide
  have hmid : ∀ c ∈ hdrMid, c.toNat < 256 := by decide
  have hend : ∀ c ∈ hdrEnd, c.toNat < 256 := by decide
  have hdescr : ∀ c ∈ dt.descrChars, c.toNat < 256 := by cases dt <;> decide
  have hsq : ∀ c ∈ [squoteCh], c.toNat < 256 := by decide
  have hnl : ∀ c ∈ [newlineCh], c.toNat < 256 := by decide
  have hrep : ∀ k, ∀ c ∈ List.replicate k ' ', c.toNat < 256 := by
    intro k c hc
    rw [List.eq_of_mem_replicate hc]
    decide
  simp only [npyHeaderFull, npyHeaderChars, List.append_assoc]
  exact all_lt_append hpre (all_lt_append hdescr (all_lt_append hsq (all_lt_append hmid
    (all_lt_append (shapeRepr_toNat_lt sh) (all_lt_append hend
      (all_lt_append (hrep _) hnl))))))

theorem npySave_all_lt (dt : Dtype) (sh : List Nat) (data : List Nat)
    (hd : data.all (fun b => b < 256) = true) :
    (npySave dt sh data).all (fun b => b < 256) = true := by
  simp only [npySave, List.all_append, Bool.and_eq_true, List.all_eq_true,
    decide_eq_true_eq]
  refine ⟨⟨⟨by decide, ?_⟩, ?_⟩, ?_⟩
  · intro b hb
    simp only [List.mem_cons, List.not_mem_nil, or_false] at hb
    have h1 : (npyHeaderFull dt sh).length % 256 < 256 := by omega
    have h2 : (npyHeaderFull dt sh).length / 256 % 256 < 256 := by omega
    rcases hb with rfl | rfl
    · exact h1
    · exact h2
  · intro b hb
    simp only [List.mem_map] at hb
    obtain ⟨c, hc, rfl⟩ := hb
    exact npyHeaderFull_toNat_lt dt sh c hc
  · intro b hb
    simp only [List.all_eq_true, decide_eq_true_eq] at hd
    exact hd b hb

/-- Core round-trip: decoding the concatenated encodings of a list of
values (none of which uses the reserved `__ndarray_class__` key) returns
exactly those values and leaves the trailing bytes unconsumed.  Fuel
exceeding the byte length always suffices. -/
theorem parseVals_encList : ∀ (fuel : Nat) (vs : List Value) (bs rest : List Nat),
    encList vs = some bs → noResL vs = true → bs.length < fuel →
    parseVals fuel vs.length (bs ++ rest) = some (vs, rest) := by
  intro fuel
  induction fuel with
  | zero => intro vs bs rest _ _ h; omega
  | succ fuel ih =>
    intro vs bs rest henc hnr hlen
    cases vs with
    | nil =>
      rw [encList] at henc
      cases henc
      rfl
    | cons v tl =>
      obtain ⟨a, b, hva, htb, rfl⟩ := encList_cons_inv v tl bs henc
      rw [noResL] at hnr
      simp only [Bool.and_eq_true] at hnr
      obtain ⟨hnrv, hnrtl⟩ := hnr
      have hapos := encVal_pos v a hva
      simp only [List.length_append] at hlen
      have hbfuel : b.length < fuel := by omega
      have hrec := ih tl b rest htb hnrtl hbfuel
      rw [List.append_assoc]
      show parseVals (fuel + 1) (tl.length + 1) (a ++ (b ++ rest)) = some (v :: tl, rest)
      cases v with
      | nil =>
        rw [encVal] at hva
        cases hva
        obtain ⟨hno, hleaf⟩ := step_simple 192 .nil (b ++ rest) (Or.inl ⟨rfl, rfl⟩)
        exact parseVals_leaf fuel tl.length .nil [192] (b ++ rest) tl rest hno hleaf hrec
      | bool bv =>
        cases bv with
        | false =>
          rw [encVal] at hva
          cases hva
          obtain ⟨hno, hleaf⟩ :=
            step_simple 194 (.bool false) (b ++ rest) (Or.inr (Or.inl ⟨rfl, rfl⟩))
          exact parseVals_leaf fuel tl.length (.bool false) [194] (b ++ rest) tl rest hno
            hleaf hrec
        | true =>
          rw [encVal] at hva
          cases hva
          obtain ⟨hno, hleaf⟩ :=
            step_simple 195 (.bool true) (b ++ rest) (Or.inr (Or.inr ⟨rfl, rfl⟩))
          exact parseVals_leaf fuel tl.length (.bool true) [195] (b ++ rest) tl rest hno
            hleaf hrec
      | int i =>
        rw [encVal] at hva
        obtain ⟨hno, hleaf⟩ := step_int i a (b ++ rest) hva
        exact parseVals_leaf fuel tl.length (.int i) a (b ++ rest) tl rest hno hleaf hrec
      | float bits =>
        rw [encVal] at hva
        split at hva
        · rename_i hb64
          cases hva
          obtain ⟨hno, hleaf⟩ := step_float bits (b ++ rest) hb64
          exact parseVals_leaf fuel tl.length (.float bits) (203 :: beBytes 8 bits)
            (b ++ rest) tl rest hno hleaf hrec
        · cases hva
      | str s =>
        rw [encVal] at hva
        obtain ⟨hno, hleaf⟩ := step_str s a (b ++ rest) hva
        exact parseVals_leaf fuel tl.length (.str s) a (b ++ rest) tl rest hno hleaf hrec
      | bin bbs =>
        rw [encVal] at hva
        split at hva
        · obtain ⟨hno, hleaf⟩ := step_bin bbs a (b ++ rest) hva
          exact parseVals_leaf fuel tl.length (.bin bbs) a (b ++ rest) tl rest hno hleaf hrec
        · cases hva
      | arr cvs =>
        rw [encVal] at hva
        cases hh : arrHdr cvs.length with
        | none => rw [hh] at hva; cases hva
        | some hd =>
          rw [hh] at hva
          cases hbody : encList cvs with
          | none => rw [hbody] at hva; cases hva
          | some body =>
            rw [hbody] at hva
            simp only [Option.some_bind, Option.map_some', Option.some.injEq] at hva
            subst hva
            have hdpos := arrHdr_pos _ _ hh
            have hbodyfuel : body.length < fuel := by
              simp only [List.length_append] at hlen
              omega
            have hnrvs : noResL cvs = true := hnrv
            have hkids := ih cvs body (b ++ rest) hbody hnrvs hbodyfuel
            rw [List.append_assoc]
            exact parseVals_container fuel tl.length false cvs.length (.arr cvs) cvs tl
              hd (body ++ (b ++ rest)) (b ++ rest) rest
              (arrMapHdr_arrHdr cvs.length hd (body ++ (b ++ rest)) hh)
              hkids rfl hrec
      | map kvs =>
        rw [encVal] at hva
        cases hh : mapHdr kvs.length with
        | none => rw [hh] at hva; cases hva
        | some hd =>
          rw [hh] at hva
          cases hbody : encMap kvs with
          | none => rw [hbody] at hva; cases hva
          | some body =>
            rw [hbody] at hva
            simp only [Option.some_bind, Option.map_some', Option.some.injEq] at hva
            subst hva
            have hdpos := mapHdr_pos _ _ hh
            have hbodyfuel : body.length < fuel := by
              simp only [List.length_append] at hlen
              omega
            have hnrmap : (kvs.lookup "__ndarray_class__").isNone = true
                ∧ noResM kvs = true := by
              have : noResV (.map kvs)
                  = ((kvs.lookup "__ndarray_class__").isNone && noResM kvs) := rfl
              rw [this] at hnrv
              simpa using hnrv
            have hbody2 : encList (flattenMap kvs) = some body := by
              rw [← encMap_flatten]
              exact hbody
            have hkids := ih (flattenMap kvs) body (b ++ rest) hbody2
              (noResL_flatten kvs hnrmap.2) hbodyfuel
            rw [flattenMap_length] at hkids
            rw [List.append_assoc]
            refine parseVals_container fuel tl.length true kvs.length (.map kvs)
              (flattenMap kvs) tl hd (body ++ (b ++ rest)) (b ++ rest) rest
              (arrMapHdr_mapHdr kvs.length hd (body ++ (b ++ rest)) hh)
              hkids ?_ hrec
            simp only [if_pos]
            rw [pairUp_flatten kvs]
            simp only [Option.some_bind]
            exact hookMap_no_reserved kvs hnrmap.1
      | ndarray dt sh data =>
        rw [encVal] at hva
        split at hva
        · rename_i hg
          obtain ⟨hdata, hall, h655, _⟩ := hg
          cases hh : binHdr (npySave dt sh data).length with
          | none => rw [hh] at hva; cases hva
          | some hd2 =>
            rw [hh] at hva
            simp only [Option.map_some', Option.some.injEq] at hva
            subst hva
            have hallnpy := npySave_all_lt dt sh data hall
            have hinner := encList_ndarray_inner (npySave dt sh data) hd2 hallnpy hh
            have hshape : ([130, 177] ++ utf8Enc "__ndarray_class__".data ++ [195, 166]
                ++ utf8Enc "as_npy".data ++ hd2 ++ npySave dt sh data) ++ (b ++ rest)
                = [130] ++ (((177 :: utf8Enc "__ndarray_class__".data) ++ [195]
                    ++ ((166 :: utf8Enc "as_npy".data) ++ (hd2 ++ npySave dt sh data)))
                  ++ (b ++ rest)) := by
              simp [List.append_assoc]
            have hinlen : ((177 :: utf8Enc "__ndarray_class__".data) ++ [195]
                ++ ((166 :: utf8Enc "as_npy".data) ++ (hd2 ++ npySave dt sh data))).length
                < fuel := by
              simp only [List.length_append, List.length_cons, List.length_singleton] at hlen ⊢
              omega
            have hkids := ih [.str "__ndarray_class__", .bool true, .str "as_npy",
              .bin (npySave dt sh data)] _ (b ++ rest) hinner (by rfl) hinlen
            have hhook : hookMap [("__ndarray_class__", Value.bool true),
                ("as_npy", Value.bin (npySave dt sh data))]
                = some (.ndarray dt sh data) := by
              have hred : hookMap [("__ndarray_class__", Value.bool true),
                  ("as_npy", Value.bin (npySave dt sh data))]
                  = (match npyLoad (npySave dt sh data) with
                    | some (dt, sh, data) => some (Value.ndarray dt sh data)
                    | none => none) := rfl
              rw [hred, npyLoad_npySave dt sh data hdata h655]
            rw [hshape]
            exact parseVals_container fuel tl.length true 2 (.ndarray dt sh data)
              [.str "__ndarray_class__", .bool true, .str "as_npy",
                .bin (npySave dt sh data)] tl [130] _ (b ++ rest) rest
              (by simp [arrMapHdr])
              hkids (by simp only [if_pos]; rw [show pairUp [Value.str "__ndarray_class__",
                .bool true, .str "as_npy", .bin (npySave dt sh data)]
                  = some [("__ndarray_class__", Value.bool true),
                    ("as_npy", Value.bin (npySave dt sh data))] from rfl]; simpa using hhook)
              hrec
        · cases hva

theorem fromBytes_toBytes (v : Value) (bs : List Nat) (hnr : noResV v = true)
    (henc : MsgSerializer.toBytes v = some bs) : MsgSerializer.fromBytes bs = .ok v := by
  rw [MsgSerializer.toBytes] at henc
  have hl : encList [v] = some bs := by
    rw [encList, henc]
    show (match encList [] with
      | some b => some (bs ++ b)
      | none => none) = some bs
    simp [encList]
  have hnrl : noResL [v] = true := by
    rw [noResL]
    simp [hnr, noResL]
  have hp := parseVals_encList (bs.length + 1) [v] bs [] hl hnrl (by omega)
  rw [List.append_nil] at hp
  rw [MsgSerializer.fromBytes]
  rw [show ([v] : List Value).length = 1 from rfl] at hp
  rw [hp]


/-! ## The GR00T client (`GR00TClient.get_action` in `gr00t_client.py`) -/

/-- Client-side state of `GR00TClient` relevant to action buffering: the
connection flag, the action queue `_action_queue` (each entry a
28-dimensional float32 action vector, stored as 32-bit patterns), and the
cursor `_current_timestep`. -/
structure GR00TClient where
  connected : Bool
  actionQueue : List (List Nat)
  currentTimestep : Nat

/-- Outcome of the single ZMQ request/reply exchange inside `get_action`:
a reply byte string, a receive timeout (`zmq.error.Again`), or any other
transport failure raised during send/receive, carrying the exception
text. -/
inductive NetOutcome where
  | reply (bs : List Nat) : NetOutcome
  | timeout : NetOutcome
  | transportFail (msg : String) : NetOutcome

/-- `torch.zeros(28, dtype=torch.float32)`: the all-zero 28-dimensional
fallback action (float32 zero is bit pattern 0). -/
def zeros28 : List Nat := List.replicate 28 0

/-- Python `str()` of a value, modelled only as far as any claim needs it:
strings render as themselves, `None`/`True`/`False` as their literals;
numeric and container reprs are summarized by a placeholder. -/
def pyStr : Value → String
  | .str s => s
  | .nil => "None"
  | .bool true => "True"
  | .bool false => "False"
  | _ => "<value>"

/-- Row `t` of a `(n, c)` float32 array as `c` 32-bit little-endian words;
`none` when the value is not such an array or the row is out of range
(numpy raises, and `get_action`'s generic handler catches it).  The
protocol's action chunks are exactly such `(T, 7)` float32 arrays. -/
def rowOf : Value → Nat → Option (List Nat)
  | .ndarray .f4 [n, c] data, t =>
    if t < n then some (leWords32 ((data.drop (t * (4 * c))).take (4 * c))) else none
  | _, _ => none

/-- `shape[0]` of the left-arm array, driving the queue-building loop. -/
def chunkRowsCount : Value → Option Nat
  | .ndarray _ [n, _] _ => some n
  | _ => none

/-- The queue-building loop of `get_action` (`for t in range(...)`):
concatenates the four 7-DOF rows of timestep `t` into one 28-DOF float32
action.  If an index error occurs midway the flag is `false` and the list
holds the rows completed before the raise — exactly the partial
`_action_queue` the Python loop leaves behind. -/
def buildRows (la ra lh rh : Value) : Nat → Nat → List (List Nat) × Bool
  | _, 0 => ([], true)
  | t, remaining + 1 =>
    match rowOf la t, rowOf ra t, rowOf lh t, rowOf rh t with
    | some r1, some r2, some r3, some r4 =>
      let p := buildRows la ra lh rh (t + 1) remaining
      ((r1 ++ r2 ++ r3 ++ r4) :: p.1, p.2)
    | _, _, _, _ => ([], false)

/-- The network path of `get_action` (everything inside the `try` from the
send onwards).  Returns the action, the successor state and the printed
lines.  The reply bytes go through the real codec; a decode failure, an
`error` field, a missing action key, a malformed action array or an empty
chunk all fall into the generic `except` and yield the zero action.
Exception texts that numpy or the dict lookup would produce are modelled
by short placeholders; no claim depends on them. -/
def netCase (st : GR00TClient) (net : NetOutcome) : List Nat × GR00TClient × List String :=
  match net with
  | .timeout => (zeros28, st, ["[GR00T] Request timeout"])
  | .transportFail msg => (zeros28, st, ["[GR00T] Error getting action: " ++ msg])
  | .reply bs =>
    match MsgSerializer.fromBytes bs with
    | .error msg => (zeros28, st, ["[GR00T] Error getting action: " ++ msg])
    | .ok (.map kvs) =>
      match kvs.lookup "error" with
      | some ev =>
        (zeros28, st, ["[GR00T] Error getting action: Server error: " ++ pyStr ev])
      | none =>
        match kvs.lookup "action.left_arm", kvs.lookup "action.right_arm",
            kvs.lookup "action.left_hand", kvs.lookup "action.right_hand" with
        | some la, some ra, some lh, some rh =>
          (match chunkRowsCount la with
          | none =>
            (zeros28, { st with actionQueue := [] },
              ["[GR00T] Error getting action: shape"])
          | some n =>
            match buildRows la ra lh rh 0 n with
            | (rows, false) =>
              (zeros28, { st with actionQueue := rows },
                ["[GR00T] Error getting action: index"])
            | ([], true) =>
              (zeros28, { st with actionQueue := [], currentTimestep := 1 },
                ["[GR00T] Received 0 timesteps of actions",
                  "[GR00T] Error getting action: index"])
            | (first :: more, true) =>
              (first, { st with actionQueue := first :: more, currentTimestep := 1 },
                ["[GR00T] Received " ++ String.mk (natChars (first :: more).length)
                  ++ " timesteps of actions"]))
        | _, _, _, _ =>
          (zeros28, st, ["[GR00T] Error getting action: KeyError"])
    | .ok _ => (zeros28, st, ["[GR00T] Error getting action: type"])

/-- `GR00TClient.get_action`.  Observation preparation and request encoding
do not affect the returned action or the buffer, so the exchange is
abstracted into the `net` outcome.  Returns the 28-dimensional action, the
successor state, whether the network path was taken (the code past the
buffer check, which performs the ZMQ send), and the printed lines. -/
def GR00TClient.getAction (st : GR00TClient) (net : NetOutcome) :
    List Nat × GR00TClient × Bool × List String :=
  if st.connected = false then
    (zeros28, st, false, ["[GR00T] Not connected. Returning zero actions."])
  else if h : st.actionQueue ≠ [] ∧ st.currentTimestep < st.actionQueue.length then
    (st.actionQueue.get ⟨st.currentTimestep, h.2⟩,
      { st with currentTimestep := st.currentTimestep + 1 }, false, [])
  else
    let p := netCase st net
    (p.1, p.2.1, true, p.2.2)

/-- Iterate `getAction` over a list of network outcomes, collecting each
returned action and whether that call used the network. -/
def runClient : GR00TClient → List NetOutcome → List (List Nat × Bool) × GR00TClient
  | st, [] => ([], st)
  | st, net :: nets =>
    let q := GR00TClient.getAction st net
    let r := runClient q.2.1 nets
    ((q.1, q.2.2.1) :: r.1, r.2)

/-! ## The logging inference server (`LoggingRobotInferenceServer` in
`Isaac-GR00T/scripts/inference_service_g1.py`) -/

/-- A registered endpoint of `BaseInferenceServer._endpoints`: the handler
and whether it takes the request's `data` payload.  `call (some d)` models
`handler(d)`, `call none` models `handler()`; an `Except.error` is a
raised exception's message. -/
structure EndpointHandler where
  requiresInput : Bool
  call : Option Value → Except String Value

/-- Server configuration: the optional API token and the endpoint
registry, both fixed at construction. -/
structure ServerConfig where
  apiToken : Option String
  endpoints : List (String × EndpointHandler)

/-- A line of the `server_log_*.jsonl` file: step number and record type
(`input` or `output`).  The array summary fields (shape, dtype, min, max,
mean, data, inference time) bear on no claim and are not modelled. -/
structure LogRecord where
  step : Nat
  rtype : String
deriving DecidableEq

/-- Server state of `LoggingRobotInferenceServer`: the step counter, the
log records written so far, and the saved image files (step index, whether
the PNG save fell back to the raw `.npy` dump). -/
structure ServerState where
  stepCount : Nat
  logs : List LogRecord
  images : List (Nat × Bool)
deriving DecidableEq

/-- The state a freshly constructed server starts in: `__init__` sets
`self.step_count = 0` with nothing yet written. -/
def ServerState.init : ServerState := ⟨0, [], []⟩

/-- Effect outcomes for one request: the `open`/`write` of the two jsonl
records, the PIL image save, and the `np.save` fallback; an error carries
the raised message (e.g. disk full). -/
structure ReqEnv where
  logWrite : Except String Unit
  imgSave : Except String Unit
  imgFallback : Except String Unit

/-- An environment in which every effect succeeds. -/
def ReqEnv.allOk : ReqEnv := ⟨.ok (), .ok (), .ok ()⟩

/-- Modelled from the spec: `BaseInferenceServer._validate_token`
(`gr00t.eval.robot`) is not among this repository's sources; per the spec,
"if a server token is configured and the request's `token` field does not
exactly match it", the request is rejected, and an "absent server-side
token disables authentication entirely (open server)".  Exact equality of
`request.get("token")` with the configured string requires the field to be
present and a string; any other value compares unequal. -/
def validateToken : Option String → List (String × Value) → Bool
  | none, _ => true
  | some tok, req =>
    match req.lookup "token" with
    | some (.str s) => s == tok
    | _ => false

/-- An `error` reply value. -/
def mkError (msg : String) : Value := .map [("error", .str msg)]

/-- `request.get("data", (empty dict))`. -/
def dataOf (req : List (String × Value)) : Value := (req.lookup "data").getD (.map [])

/-- ASCII lowercasing of one character. -/
def lowerCh (c : Char) : Char :=
  if 65 ≤ c.toNat ∧ c.toNat ≤ 90 then Char.ofNat (c.toNat + 32) else c

/-- Does the character list contain `video` as a substring? -/
def containsVideo : List Char → Bool
  | [] => false
  | c :: cs => "video".data.isPrefixOf (c :: cs) || containsVideo cs

/-- `"video" in key.lower()`.  Protocol keys are ASCII, where Python
`str.lower` agrees with per-character ASCII lowercasing. -/
def isVideoKey (k : String) : Bool := containsVideo (k.data.map lowerCh)

/-- Is the value an array of `ndim >= 3`? -/
def isNdarray3 : Value → Bool
  | .ndarray _ sh _ => decide (3 ≤ sh.length)
  | _ => false

/-- The first image-like observation entry, as the image-saving loop finds
it. -/
def findVideo : List (String × Value) → Option Value
  | [] => none
  | (k, v) :: tl => if isVideoKey k && isNdarray3 v then some v else findVideo tl

/-- The image-saving block of the `get_action` branch: the first
observation entry whose key contains `video` and whose value has
`ndim >= 3` is saved as a PNG under the current step index; on any PIL
failure a bare `except` falls back to `np.save`, whose own failure
propagates to the outer handler. -/
def imgStep (env : ReqEnv) (st : ServerState) (obs : List (String × Value)) :
    Except String ServerState :=
  match findVideo obs with
  | none => .ok st
  | some _ =>
    match env.imgSave with
    | .ok _ => .ok { st with images := st.images ++ [(st.stepCount, false)] }
    | .error _ =>
      match env.imgFallback with
      | .ok _ => .ok { st with images := st.images ++ [(st.stepCount, true)] }
      | .error e => .error e

/-- The ndarray-statistics scan shared by the input-log and output-log
summary loops: for each entry whose value is an ndarray the loop computes
`float(np.min(value))`, `np.max`, `np.mean` and `value.tolist()` —
`np.min` raises `ValueError` on a zero-size array (`value.size == 0`,
i.e. the shape has a zero dimension, which is the product of the shape
being zero) and this is the first and only raise either loop can produce
for an array entry; on a nonempty array of any supported dtype none of
the four calls raise.  Non-array entries never raise: the input loop
renders them with `str`/identity and the output loop skips them (its
`if isinstance(value, np.ndarray)` has no `else`).  The scan succeeds or
stops at the first zero-size array, in entry order. -/
def summaryScan : List (String × Value) → Except String Unit
  | [] => .ok ()
  | (_, .ndarray _ sh _) :: tl =>
    if sh.prod == 0 then
      .error "zero-size array to reduction operation minimum which has no identity"
    else summaryScan tl
  | _ :: tl => summaryScan tl

/-- The output-summary step: `result.items()` raises `AttributeError`
when the handler returned anything but a mapping; on a mapping the loop
is the ndarray-statistics scan. -/
def outputSummary : Value → Except String Unit
  | .map kvs => summaryScan kvs
  | _ => .error "AttributeError: items"

/-- The `get_action` branch of the request loop: increment the step
counter, build the input summary, save the image, invoke the handler on
the observation dict (`requires_input` is not consulted here), build the
output summary, then write both log records.  Any raise — `data` not a
mapping, a zero-size array in the input summary (before the image is
saved or the handler runs), image fallback failure, handler failure, a
non-mapping result or zero-size array in the output summary (before the
log write), log-write failure — propagates to the outer `except`, which
turns it into an `error` reply with no log records written; the step
counter keeps its increment in every such case. -/
def gaBranch (cfg : ServerConfig) (env : ReqEnv) (st : ServerState)
    (req : List (String × Value)) : ServerState × Value :=
  let st1 := { st with stepCount := st.stepCount + 1 }
  match dataOf req with
  | .map obsKvs =>
    match summaryScan obsKvs with
    | .error e => (st1, mkError e)
    | .ok _ =>
      match imgStep env st1 obsKvs with
      | .error e => (st1, mkError e)
      | .ok st2 =>
        match cfg.endpoints.lookup "get_action" with
        | none => (st2, mkError "KeyError: get_action")
        | some h =>
          match h.call (some (.map obsKvs)) with
          | .error e => (st2, mkError e)
          | .ok result =>
            match outputSummary result with
            | .error e => (st2, mkError e)
            | .ok _ =>
              match env.logWrite with
              | .error e => (st2, mkError e)
              | .ok _ =>
                ({ st2 with logs := st2.logs
                    ++ [⟨st1.stepCount, "input"⟩, ⟨st1.stepCount, "output"⟩] }, result)
  | _ => (st1, mkError "AttributeError: items")

/-- Request processing after decode and authentication: resolve the
endpoint, defaulting to `get_action` when the field is absent; an
unregistered name raises `ValueError(f"Unknown endpoint: ...")`, which the
outer `except` converts into the reply; `get_action` goes to the logging
branch; other handlers receive `data` only if they require input.  A
non-string endpoint value cannot be registered, so it also yields the
unknown-endpoint reply (its f-string rendering modelled by `pyStr`). -/
def serverStepAuthed (cfg : ServerConfig) (env : ReqEnv) (st : ServerState)
    (req : List (String × Value)) : ServerState × Value :=
  match (req.lookup "endpoint").getD (.str "get_action") with
  | .str name =>
    if (cfg.endpoints.lookup name).isNone then
      (st, mkError ("Unknown endpoint: " ++ name))
    else if name == "get_action" then gaBranch cfg env st req
    else
      match cfg.endpoints.lookup name with
      | some h =>
        match (if h.requiresInput then h.call (some (dataOf req)) else h.call none) with
        | .ok result => (st, result)
        | .error e => (st, mkError e)
      | none => (st, mkError "")
  | other => (st, mkError ("Unknown endpoint: " ++ pyStr other))

/-- One iteration of `LoggingRobotInferenceServer.run` on a decoded
request: a decode failure became an exception before the token check, so
the outer `except` replies with its message; then authentication; then
dispatch.  The reply is the single value passed to `socket.send`, and the
returned state is carried into the next iteration — the loop itself never
terminates on any of these paths. -/
def serverStepDecoded (cfg : ServerConfig) (env : ReqEnv) (st : ServerState) :
    Except String Value → ServerState × Value
  | .error e => (st, mkError e)
  | .ok (.map req) =>
    if validateToken cfg.apiToken req = false then
      (st, mkError "Unauthorized: Invalid API token")
    else serverStepAuthed cfg env st req
  | .ok _ => (st, mkError "AttributeError: get")

/-- One iteration of the request loop on raw wire bytes. -/
def serverStep (cfg : ServerConfig) (env : ReqEnv) (st : ServerState) (bs : List Nat) :
    ServerState × Value :=
  serverStepDecoded cfg env st (MsgSerializer.fromBytes bs)

/-- The request loop over a sequence of decoded requests, collecting the
replies in order. -/
def serverRunD : ServerConfig → ServerState → List (ReqEnv × Except String Value) →
    ServerState × List Value
  | _, st, [] => (st, [])
  | cfg, st, (env, r) :: more =>
    let p := serverStepDecoded cfg env st r
    let q := serverRunD cfg p.1 more
    (q.1, p.2 :: q.2)

/-- The request loop over raw wire payloads. -/
def serverRun (cfg : ServerConfig) (st : ServerState) (reqs : List (ReqEnv × List Nat)) :
    ServerState × List Value :=
  serverRunD cfg st (reqs.map (fun p => (p.1, MsgSerializer.fromBytes p.2)))

/-! ## Claims -/

/-- A closed sample message exercising every part of the data model:
nested mappings, a sequence, scalars of every kind, strings, and arrays of
all four dtypes including a zero-length array. -/
def sampleMessage : Value :=
  .map [
    ("endpoint", .str "get_action"),
    ("token", .str "secret"),
    ("data", .map [
      ("video.rs_view", .ndarray .u1 [1, 2, 2, 3] [0, 1, 2, 3, 4, 5, 250, 251, 252, 253,
        254, 255]),
      ("state.left_arm", .ndarray .f8 [1, 2] [24, 45, 68, 84, 251, 33, 9, 64, 0, 0, 0, 0,
        0, 0, 240, 63]),
      ("action.left_arm", .ndarray .f4 [2, 1] [0, 0, 128, 63, 0, 0, 0, 64]),
      ("empty", .ndarray .i8 [0] []),
      ("annotation.human.task_description", .arr [.str "pick up the cylinder"]),
      ("count", .int (-300)),
      ("big", .int 4294967296),
      ("flag", .bool true),
      ("pi", .float 4614256656552045848),
      ("blob", .bin [0, 255]),
      ("nothing", .nil)])]

/-- C1 (counterexample).  The round-trip does not hold for every Message of
nested string-keyed mappings and scalars: the one-entry mapping whose key
is `__ndarray_class__` (with scalar value `True`) encodes successfully,
but decoding its own encoding fails — the decode hook takes the mapping
for an array wrapper and raises while reading its `as_npy` field — so
`decode(encode(m)) == m` fails and `decode` raises on codec-produced
bytes. -/
theorem codec_roundtrip_reserved_key_cex :
    (MsgSerializer.toBytes (.map [("__ndarray_class__", .bool true)])).isSome = true
    ∧ MsgSerializer.fromBytes
        ((MsgSerializer.toBytes (.map [("__ndarray_class__", .bool true)])).getD [])
      ≠ .ok (.map [("__ndarray_class__", .bool true)]) := by
  refine ⟨rfl, fun h => ?_⟩
  rw [show MsgSerializer.fromBytes
      ((MsgSerializer.toBytes (.map [("__ndarray_class__", .bool true)])).getD [])
      = .error "Unpack failed: incomplete input" from rfl] at h
  exact Except.noConfusion h

/-- C1 (amended).  Codec round-trip for every encodable Message whose
mappings avoid the codec's reserved in-band key `__ndarray_class__`:
decoding the encoding returns the original value — for arrays this means
the exact dtype, shape and element bytes, including zero-length arrays of
every supported dtype — and decode never fails on such encoder output. -/
theorem codec_roundtrip (m : Value) (bs : List Nat) (hres : noResV m = true)
    (henc : MsgSerializer.toBytes m = some bs) :
    MsgSerializer.fromBytes bs = .ok m :=
  fromBytes_toBytes m bs hres henc

/-- C1 witness: the amended round-trip at `sampleMessage`. -/
theorem codec_roundtrip_witness :
    MsgSerializer.fromBytes ((MsgSerializer.toBytes sampleMessage).getD [])
      = .ok sampleMessage :=
  codec_roundtrip sampleMessage ((MsgSerializer.toBytes sampleMessage).getD [])
    (by rfl) (by rfl)

/-- A buffered `get_action` call: with unexhausted actions queued, the call
returns the action at the cursor, advances the cursor, touches the network
for no outcome, and prints nothing. -/
theorem getAction_buffered (st : GR00TClient) (net : NetOutcome)
    (hc : st.connected = true) (hlt : st.currentTimestep < st.actionQueue.length) :
    GR00TClient.getAction st net
      = (st.actionQueue.get ⟨st.currentTimestep, hlt⟩,
          { st with currentTimestep := st.currentTimestep + 1 }, false, []) := by
  have hne : st.actionQueue ≠ [] := by
    intro h
    rw [h] at hlt
    simp at hlt
  rw [GR00TClient.getAction, if_neg (by simp [hc]), dif_pos ⟨hne, hlt⟩]

/-- An exhausted (or empty) buffer forces the network path: the call's
`usedNetwork` component is true for every outcome. -/
theorem getAction_network (st : GR00TClient) (net : NetOutcome)
    (hc : st.connected = true) (hb : st.actionQueue.length ≤ st.currentTimestep) :
    GR00TClient.getAction st net
      = ((netCase st net).1, (netCase st net).2.1, true, (netCase st net).2.2) := by
  rw [GR00TClient.getAction, if_neg (by simp [hc]), dif_neg (fun hh => by omega)]

/-- Runs of buffered calls: `k` consecutive calls against a buffer holding
at least `k` unserved actions all avoid the network and only advance the
cursor by `k`. -/
theorem runClient_buffered (k : Nat) : ∀ (st : GR00TClient) (nets : List NetOutcome),
    st.connected = true → nets.length = k →
    st.currentTimestep + k ≤ st.actionQueue.length →
    (runClient st nets).1.map Prod.snd = List.replicate k false
      ∧ (runClient st nets).2 = { st with currentTimestep := st.currentTimestep + k } := by
  induction k with
  | zero =>
    intro st nets hc hn hle
    cases nets with
    | nil => exact ⟨rfl, rfl⟩
    | cons a b => simp at hn
  | succ k ih =>
    intro st nets hc hn hle
    cases nets with
    | nil => simp at hn
    | cons net nets' =>
      have hlt : st.currentTimestep < st.actionQueue.length := by omega
      rw [runClient, getAction_buffered st net hc hlt]
      obtain ⟨h1, h2⟩ := ih { st with currentTimestep := st.currentTimestep + 1 } nets' hc
        (by simpa using hn) (by simp; omega)
      refine ⟨?_, ?_⟩
      · simp only [List.map_cons, h1, List.replicate_succ]
      · rw [h2]
        simp only [GR00TClient.mk.injEq, true_and]
        omega

/-- C2.  Action-buffer amortization.  First conjunct (the invariant): a
call made while unexhausted buffered actions remain returns the buffered
timestep at the cursor and increments the cursor, issuing no network
request, whatever the network would have answered.  Second conjunct (the
16/17 schedule): from a buffer holding a 16-timestep chunk with cursor 0,
the next 16 consecutive `getAction` calls all return from the buffer with
no network use, and the 17th call reaches the network path. -/
theorem action_buffer_amortization :
    (∀ (st : GR00TClient) (net : NetOutcome)
        (_hc : st.connected = true) (hlt : st.currentTimestep < st.actionQueue.length),
      GR00TClient.getAction st net
        = (st.actionQueue.get ⟨st.currentTimestep, hlt⟩,
            { st with currentTimestep := st.currentTimestep + 1 }, false, []))
    ∧ (∀ (st : GR00TClient) (nets : List NetOutcome) (net17 : NetOutcome),
        st.connected = true → st.actionQueue.length = 16 → st.currentTimestep = 0 →
        nets.length = 16 →
        (runClient st nets).1.map Prod.snd = List.replicate 16 false
          ∧ (GR00TClient.getAction (runClient st nets).2 net17).2.2.1 = true) := by
  refine ⟨getAction_buffered, ?_⟩
  intro st nets net17 hc hq hcur hn
  obtain ⟨h1, h2⟩ := runClient_buffered 16 st nets hc hn (by omega)
  refine ⟨h1, ?_⟩
  rw [h2, getAction_network _ net17 (by simpa using hc) (by simp [hq, hcur])]

/-- C2 witness: the amortization schedule on a concrete client holding a
16-action chunk. -/
theorem action_buffer_amortization_witness :
    GR00TClient.getAction ⟨true, List.replicate 16 zeros28, 0⟩ NetOutcome.timeout
      = (zeros28, ⟨true, List.replicate 16 zeros28, 1⟩, false, [])
    ∧ (runClient ⟨true, List.replicate 16 zeros28, 0⟩
        (List.replicate 16 NetOutcome.timeout)).1.map Prod.snd = List.replicate 16 false
    ∧ (GR00TClient.getAction (runClient ⟨true, List.replicate 16 zeros28, 0⟩
        (List.replicate 16 NetOutcome.timeout)).2 NetOutcome.timeout).2.2.1 = true := by
  have h := action_buffer_amortization
  have hb := h.2 ⟨true, List.replicate 16 zeros28, 0⟩ (List.replicate 16 NetOutcome.timeout)
    NetOutcome.timeout rfl (by simp) rfl (by simp)
  refine ⟨?_, hb.1, hb.2⟩
  have ha := h.1 ⟨true, List.replicate 16 zeros28, 0⟩ NetOutcome.timeout rfl (by simp)
  simpa using ha

/-- C3.  Fail-safe fallback on the network path (connected, buffer
exhausted): on a receive timeout, on any transport failure, and on a
decoded reply carrying an `error` field, `get_action` does not raise — it
returns the all-zero action of the client's 28 dimensions, leaves the
buffer untouched, and prints the condition. -/
theorem getaction_failsafe :
    zeros28 = List.replicate 28 0
    ∧ (∀ (st : GR00TClient), st.connected = true →
        st.actionQueue.length ≤ st.currentTimestep →
        GR00TClient.getAction st .timeout
          = (zeros28, st, true, ["[GR00T] Request timeout"]))
    ∧ (∀ (st : GR00TClient) (msg : String), st.connected = true →
        st.actionQueue.length ≤ st.currentTimestep →
        GR00TClient.getAction st (.transportFail msg)
          = (zeros28, st, true, ["[GR00T] Error getting action: " ++ msg]))
    ∧ (∀ (st : GR00TClient) (bs : List Nat) (kvs : List (String × Value)) (ev : Value),
        st.connected = true → st.actionQueue.length ≤ st.currentTimestep →
        MsgSerializer.fromBytes bs = .ok (.map kvs) → kvs.lookup "error" = some ev →
        GR00TClient.getAction st (.reply bs)
          = (zeros28, st, true,
              ["[GR00T] Error getting action: Server error: " ++ pyStr ev])) := by
  refine ⟨rfl, ?_, ?_, ?_⟩
  · intro st hc hb
    rw [getAction_network st .timeout hc hb]
    rfl
  · intro st msg hc hb
    rw [getAction_network st (.transportFail msg) hc hb]
    rfl
  · intro st bs kvs ev hc hb hdec hlook
    rw [getAction_network st (.reply bs) hc hb]
    simp only [netCase, hdec, hlook]

/-- C3 witness: the three fail-safe paths on a concrete exhausted client;
the error reply travels through the real codec. -/
theorem getaction_failsafe_witness :
    GR00TClient.getAction ⟨true, [], 0⟩ .timeout
      = (zeros28, ⟨true, [], 0⟩, true, ["[GR00T] Request timeout"])
    ∧ GR00TClient.getAction ⟨true, [], 0⟩ (.transportFail "Connection refused")
      = (zeros28, ⟨true, [], 0⟩, true,
          ["[GR00T] Error getting action: Connection refused"])
    ∧ GR00TClient.getAction ⟨true, [], 0⟩
        (.reply ((MsgSerializer.toBytes (mkError "cuda out of memory")).getD []))
      = (zeros28, ⟨true, [], 0⟩, true,
          ["[GR00T] Error getting action: Server error: cuda out of memory"]) := by
  have h := getaction_failsafe
  refine ⟨h.2.1 ⟨true, [], 0⟩ rfl (by simp), h.2.2.1 ⟨true, [], 0⟩ "Connection refused" rfl
    (by simp), ?_⟩
  exact h.2.2.2 ⟨true, [], 0⟩ _ [("error", .str "cuda out of memory")]
    (.str "cuda out of memory") rfl (by simp) (by rfl) (by rfl)

/-- A demonstration handler that succeeds with a fixed reply. -/
def okHandler : EndpointHandler := ⟨true, fun _ => .ok (.map [("ok", .bool true)])⟩

/-- A demonstration registry with the two protocol endpoints. -/
def demoRegistry : List (String × EndpointHandler) :=
  [("get_action", okHandler), ("get_modality_config", ⟨false, fun _ => .ok (.map [])⟩)]

/-- C4.  Auth uniformity.  With a token configured, every decoded request
whose `token` field is not exactly that string — absent, non-string, or
unequal — is answered with exactly the `Unauthorized: Invalid API token`
error, whatever its endpoint and payload, and the server state is
untouched: no handler runs, the step counter keeps its value, and nothing
is logged.  With no token configured, every request (any `token` field or
none) proceeds to dispatch exactly as if authentication did not exist. -/
theorem auth_uniformity :
    (∀ (cfg : ServerConfig) (env : ReqEnv) (st : ServerState)
        (req : List (String × Value)) (tok : String),
      cfg.apiToken = some tok → req.lookup "token" ≠ some (.str tok) →
      serverStepDecoded cfg env st (.ok (.map req))
        = (st, mkError "Unauthorized: Invalid API token"))
    ∧ (∀ (cfg : ServerConfig) (env : ReqEnv) (st : ServerState)
        (req : List (String × Value)),
      cfg.apiToken = none →
      serverStepDecoded cfg env st (.ok (.map req)) = serverStepAuthed cfg env st req) := by
  constructor
  · intro cfg env st req tok htok hm
    have hv : validateToken cfg.apiToken req = false := by
      rw [htok, validateToken]
      cases hl : req.lookup "token" with
      | none => rfl
      | some v =>
        cases v with
        | str s =>
          by_cases hst : s = tok
          · exact absurd (by rw [hl, hst]) hm
          · simp [hst]
        | nil => rfl
        | bool b => rfl
        | int i => rfl
        | float bits => rfl
        | bin bs => rfl
        | arr vs => rfl
        | map kvs => rfl
        | ndarray dt sh data => rfl
    simp only [serverStepDecoded, hv, if_pos]
  · intro cfg env st req htok
    have hv : validateToken cfg.apiToken req = true := by
      rw [htok]
      rfl
    simp only [serverStepDecoded, hv]
    rw [if_neg (by simp)]

/-- C4 witness: a wrong token, a missing token, and the open server, each
on a concrete request. -/
theorem auth_uniformity_witness :
    serverStepDecoded ⟨some "secret", demoRegistry⟩ ReqEnv.allOk ServerState.init
      (.ok (.map [("endpoint", .str "get_action"), ("token", .str "wrong")]))
      = (ServerState.init, mkError "Unauthorized: Invalid API token")
    ∧ serverStepDecoded ⟨some "secret", demoRegistry⟩ ReqEnv.allOk ServerState.init
        (.ok (.map [("endpoint", .str "get_modality_config")]))
      = (ServerState.init, mkError "Unauthorized: Invalid API token")
    ∧ serverStepDecoded ⟨none, demoRegistry⟩ ReqEnv.allOk ServerState.init
        (.ok (.map [("endpoint", .str "get_modality_config"), ("token", .str "anything")]))
      = serverStepAuthed ⟨none, demoRegistry⟩ ReqEnv.allOk ServerState.init
          [("endpoint", .str "get_modality_config"), ("token", .str "anything")] := by
  refine ⟨?_, ?_, ?_⟩
  · refine auth_uniformity.1 _ ReqEnv.allOk _ _ "secret" rfl (fun hcon => ?_)
    rw [show List.lookup "token" [("endpoint", Value.str "get_action"),
      ("token", Value.str "wrong")] = some (Value.str "wrong") from rfl] at hcon
    simp at hcon
  · refine auth_uniformity.1 _ ReqEnv.allOk _ _ "secret" rfl (fun hcon => ?_)
    rw [show List.lookup "token" [("endpoint", Value.str "get_modality_config")]
      = (none : Option Value) from rfl] at hcon
    exact Option.noConfusion hcon
  · exact auth_uniformity.2 _ ReqEnv.allOk _ _ rfl

/-- The log records `n` consecutive successful `get_action` requests append
when the step counter stands at `c` beforehand: an `input` and an `output`
record per request, numbered `c+1, c+2, ...`. -/
def gaLogs : Nat → Nat → List LogRecord
  | _, 0 => []
  | c, n + 1 => ⟨c + 1, "input"⟩ :: ⟨c + 1, "output"⟩ :: gaLogs (c + 1) n

/-- A fully successful authenticated `get_action` request with its effect
environment: decode and auth pass, the endpoint resolves to the registered
`get_action` handler, the observation is a mapping whose input-summary
computation succeeds (no zero-size array), and the image step, the
handler, the output summary of its result (a mapping with no zero-size
array) and the log write all succeed. -/
def GoodGA (cfg : ServerConfig) (p : ReqEnv × Except String Value) : Prop :=
  ∃ req obs h result,
    p.2 = .ok (.map req)
    ∧ validateToken cfg.apiToken req = true
    ∧ (req.lookup "endpoint").getD (.str "get_action") = .str "get_action"
    ∧ cfg.endpoints.lookup "get_action" = some h
    ∧ dataOf req = .map obs
    ∧ summaryScan obs = .ok ()
    ∧ (∀ s : ServerState, ∃ s2, imgStep p.1 s obs = .ok s2)
    ∧ h.call (some (.map obs)) = .ok result
    ∧ outputSummary result = .ok ()
    ∧ p.1.logWrite = .ok ()

theorem imgStep_preserves (env : ReqEnv) (s s2 : ServerState)
    (obs : List (String × Value)) (h : imgStep env s obs = .ok s2) :
    s2.stepCount = s.stepCount ∧ s2.logs = s.logs := by
  rw [imgStep] at h
  cases hf : findVideo obs with
  | none =>
    rw [hf] at h
    cases h
    exact ⟨rfl, rfl⟩
  | some v =>
    rw [hf] at h
    cases hs : env.imgSave with
    | ok u =>
      rw [hs] at h
      cases h
      exact ⟨rfl, rfl⟩
    | error e =>
      rw [hs] at h
      cases hfb : env.imgFallback with
      | ok u =>
        rw [hfb] at h
        cases h
        exact ⟨rfl, rfl⟩
      | error e2 =>
        rw [hfb] at h
        cases h

theorem goodGA_step (cfg : ServerConfig) (env : ReqEnv) (st : ServerState)
    (req : List (String × Value)) (hg : GoodGA cfg (env, .ok (.map req))) :
    ∃ st' result, serverStepDecoded cfg env st (.ok (.map req)) = (st', result)
      ∧ st'.stepCount = st.stepCount + 1
      ∧ st'.logs = st.logs
          ++ [⟨st.stepCount + 1, "input"⟩, ⟨st.stepCount + 1, "output"⟩] := by
  obtain ⟨req', obs, h, result, hr, hv, he, hreg, hobs, hsum, himg, hcall, hout, hw⟩ := hg
  simp only [Except.ok.injEq, Value.map.injEq] at hr
  subst hr
  obtain ⟨st2, himg2⟩ := himg { st with stepCount := st.stepCount + 1 }
  obtain ⟨hp1, hp2⟩ := imgStep_preserves _ _ _ _ himg2
  refine ⟨{ st2 with logs := st2.logs
      ++ [⟨st.stepCount + 1, "input"⟩, ⟨st.stepCount + 1, "output"⟩] }, result, ?_, ?_, ?_⟩
  · simp only [serverStepDecoded, hv]
    rw [if_neg (by simp), serverStepAuthed, he]
    dsimp only
    rw [hreg]
    rw [if_neg (by simp)]
    rw [if_pos (by rfl)]
    rw [gaBranch, hobs]
    dsimp only
    rw [hsum]
    dsimp only
    rw [himg2]
    dsimp only
    rw [hreg]
    dsimp only
    rw [hcall]
    dsimp only
    rw [hout]
    dsimp only
    rw [show (env, Except.ok (Value.map req)).1.logWrite = Except.ok () from hw]
  · simpa using hp1
  · rw [hp2]

theorem gaLogs_input_steps (n : Nat) : ∀ c,
    ((gaLogs c n).filter (fun r => r.rtype == "input")).map (fun r => r.step)
      = List.range' (c + 1) n := by
  induction n with
  | zero => intro c; rfl
  | succ n ih =>
    intro c
    rw [show ((gaLogs c (n + 1)).filter (fun r => r.rtype == "input")).map (fun r => r.step)
        = (c + 1) ::
          ((gaLogs (c + 1) n).filter (fun r => r.rtype == "input")).map (fun r => r.step)
      from rfl, ih (c + 1)]
    rfl

/-- C6.  Step-counter monotonicity: the counter starts at 0 with the
server; each successful `get_action` request increments it exactly once
and appends its two log records carrying the incremented value; it is
never reset while the loop runs.  Hence over any run of `N` successful
`get_action` requests from a fresh server the logged `input` step numbers
are exactly `1, 2, ..., N` (`List.range' 1 N`), with no gaps or
repeats. -/
theorem step_counter_monotonicity :
    ServerState.init.stepCount = 0
    ∧ (∀ c n, ((gaLogs c n).filter (fun r => r.rtype == "input")).map (fun r => r.step)
        = List.range' (c + 1) n)
    ∧ (∀ (cfg : ServerConfig) (reqs : List (ReqEnv × Except String Value))
        (st : ServerState), (∀ p ∈ reqs, GoodGA cfg p) →
      (serverRunD cfg st reqs).1.stepCount = st.stepCount + reqs.length
        ∧ (serverRunD cfg st reqs).1.logs = st.logs ++ gaLogs st.stepCount reqs.length) := by
  refine ⟨rfl, fun c n => gaLogs_input_steps n c, ?_⟩
  intro cfg reqs
  induction reqs with
  | nil =>
    intro st _
    exact ⟨rfl, by simp [serverRunD, gaLogs]⟩
  | cons p more ih =>
    intro st hall
    obtain ⟨env, r⟩ := p
    obtain ⟨req, obs, h, result, hr, hrest⟩ := hall (env, r) (by simp)
    have hr2 : r = .ok (.map req) := hr
    subst hr2
    obtain ⟨st', result', hstep, hsc, hlogs⟩ := goodGA_step cfg env st req
      ⟨req, obs, h, result, rfl, hrest⟩
    simp only [serverRunD]
    rw [hstep]
    obtain ⟨ih1, ih2⟩ := ih st' (fun q hq => hall q (by simp [hq]))
    constructor
    · rw [ih1, hsc]
      simp only [List.length_cons]
      omega
    · rw [ih2, hlogs, hsc]
      simp only [List.length_cons]
      rw [show gaLogs st.stepCount (more.length + 1)
          = ⟨st.stepCount + 1, "input"⟩ :: ⟨st.stepCount + 1, "output"⟩
            :: gaLogs (st.stepCount + 1) more.length from rfl]
      simp [List.append_assoc]

/-- C6 witness: three successful `get_action` requests against a fresh
server log steps 1, 2, 3. -/
theorem step_counter_monotonicity_witness :
    (serverRunD ⟨none, demoRegistry⟩ ServerState.init
        (List.replicate 3 (ReqEnv.allOk,
          .ok (.map [("endpoint", .str "get_action")])))).1.stepCount = 3
    ∧ (serverRunD ⟨none, demoRegistry⟩ ServerState.init
        (List.replicate 3 (ReqEnv.allOk,
          .ok (.map [("endpoint", .str "get_action")])))).1.logs
      = [⟨1, "input"⟩, ⟨1, "output"⟩, ⟨2, "input"⟩, ⟨2, "output"⟩, ⟨3, "input"⟩,
         ⟨3, "output"⟩]
    ∧ ((gaLogs 0 3).filter (fun r => r.rtype == "input")).map (fun r => r.step)
      = List.range' 1 3 := by
  have hgood : ∀ p ∈ List.replicate 3 ((ReqEnv.allOk : ReqEnv),
      (Except.ok (Value.map [("endpoint", Value.str "get_action")])
        : Except String Value)), GoodGA ⟨none, demoRegistry⟩ p := by
    intro p hp
    rw [List.eq_of_mem_replicate hp]
    exact ⟨[("endpoint", .str "get_action")], [], okHandler, .map [("ok", .bool true)],
      rfl, rfl, rfl, rfl, rfl, rfl, fun s => ⟨s, rfl⟩, rfl, rfl, rfl⟩
  have h := step_counter_monotonicity
  obtain ⟨h1, h2⟩ := h.2.2 ⟨none, demoRegistry⟩ _ ServerState.init hgood
  refine ⟨?_, ?_, h.2.1 0 3⟩
  · rw [h1]
    rfl
  · rw [h2]
    rfl

/-- C7 (counterexample): on the truncated wire payload `[0xa1]` the reply
is the decode exception's text, not the literal `malformed request` the
claim states — no code path ever constructs that string. -/
theorem malformed_request_reply_cex :
    serverStep ⟨none, demoRegistry⟩ ReqEnv.allOk ServerState.init [161]
      = (ServerState.init, mkError "Unpack failed: incomplete input")
    ∧ mkError "Unpack failed: incomplete input" ≠ mkError "malformed request" := by
  refine ⟨rfl, fun h => ?_⟩
  simp only [mkError, Value.map.injEq, List.cons.injEq, Prod.mk.injEq,
    Value.str.injEq] at h
  exact absurd h.1.2 (by decide)

/-- C7 (amended).  For every wire payload that fails to decode, the server
replies `(error: <the decode exception text>)` with its state untouched,
and the loop continues: the remaining requests are served exactly as they
would have been, so the connection and the process survive. -/
theorem malformed_request_error_reply (cfg : ServerConfig) (env : ReqEnv)
    (st : ServerState) (bs : List Nat) (msg : String)
    (hdec : MsgSerializer.fromBytes bs = .error msg)
    (more : List (ReqEnv × List Nat)) :
    serverStep cfg env st bs = (st, mkError msg)
    ∧ serverRun cfg st ((env, bs) :: more)
      = ((serverRun cfg st more).1, mkError msg :: (serverRun cfg st more).2) := by
  have hstep : serverStep cfg env st bs = (st, mkError msg) := by
    rw [serverStep, hdec]
    rfl
  refine ⟨hstep, ?_⟩
  rw [serverRun, List.map_cons]
  simp only [serverRunD]
  rw [show MsgSerializer.fromBytes bs = .error msg from hdec]
  rfl

/-- C7 witness: the amended behaviour on the concrete truncated payload
`[0xa1]`, followed by one further (also malformed) request that is still
served. -/
theorem malformed_request_error_reply_witness :
    serverStep ⟨none, demoRegistry⟩ ReqEnv.allOk ServerState.init [161]
      = (ServerState.init, mkError "Unpack failed: incomplete input")
    ∧ serverRun ⟨none, demoRegistry⟩ ServerState.init
        [(ReqEnv.allOk, [161]), (ReqEnv.allOk, [196])]
      = (ServerState.init, [mkError "Unpack failed: incomplete input",
          mkError "Unpack failed: incomplete input"]) := by
  have h := malformed_request_error_reply ⟨none, demoRegistry⟩ ReqEnv.allOk
    ServerState.init [161] "Unpack failed: incomplete input" (by rfl)
    [(ReqEnv.allOk, [196])]
  refine ⟨h.1, ?_⟩
  rw [h.2]
  rfl

/-- C8.  Unknown endpoint: every decoded, authenticated request naming an
unregistered endpoint is answered `Unknown endpoint: <name>` with the
name interpolated; the state is untouched (no handler runs, the step
counter keeps its value) and the loop goes on serving the remaining
requests. -/
theorem unknown_endpoint_reply (cfg : ServerConfig) (env : ReqEnv) (st : ServerState)
    (req : List (String × Value)) (name : String)
    (more : List (ReqEnv × Except String Value))
    (hv : validateToken cfg.apiToken req = true)
    (he : req.lookup "endpoint" = some (.str name))
    (hreg : cfg.endpoints.lookup name = none) :
    serverStepDecoded cfg env st (.ok (.map req))
      = (st, mkError ("Unknown endpoint: " ++ name))
    ∧ serverRunD cfg st ((env, .ok (.map req)) :: more)
      = ((serverRunD cfg st more).1,
          mkError ("Unknown endpoint: " ++ name) :: (serverRunD cfg st more).2) := by
  have hstep : serverStepDecoded cfg env st (.ok (.map req))
      = (st, mkError ("Unknown endpoint: " ++ name)) := by
    simp only [serverStepDecoded, hv]
    rw [if_neg (by simp), serverStepAuthed, he]
    simp only [Option.getD_some]
    rw [hreg]
    rfl
  refine ⟨hstep, ?_⟩
  simp only [serverRunD]
  rw [hstep]

/-- C8 witness: three distinct bogus endpoint names on a concrete
server. -/
theorem unknown_endpoint_reply_witness :
    serverStepDecoded ⟨none, demoRegistry⟩ ReqEnv.allOk ServerState.init
      (.ok (.map [("endpoint", .str "get_actionz")]))
      = (ServerState.init, mkError "Unknown endpoint: get_actionz")
    ∧ serverStepDecoded ⟨none, demoRegistry⟩ ReqEnv.allOk ServerState.init
        (.ok (.map [("endpoint", .str "")]))
      = (ServerState.init, mkError "Unknown endpoint: ")
    ∧ serverStepDecoded ⟨none, demoRegistry⟩ ReqEnv.allOk ServerState.init
        (.ok (.map [("endpoint", .str "shutdown")]))
      = (ServerState.init, mkError "Unknown endpoint: shutdown") := by
  refine ⟨?_, ?_, ?_⟩
  · exact (unknown_endpoint_reply ⟨none, demoRegistry⟩ ReqEnv.allOk ServerState.init
      [("endpoint", .str "get_actionz")] "get_actionz" [] rfl rfl rfl).1
  · exact (unknown_endpoint_reply ⟨none, demoRegistry⟩ ReqEnv.allOk ServerState.init
      [("endpoint", .str "")] "" [] rfl rfl rfl).1
  · exact (unknown_endpoint_reply ⟨none, demoRegistry⟩ ReqEnv.allOk ServerState.init
      [("endpoint", .str "shutdown")] "shutdown" [] rfl rfl rfl).1

/-- C9 (counterexample): for a `get_action` request whose handler
succeeds, a log-write failure (disk full) is NOT swallowed — the
`with open(...)` write sits inside the outer `except`, so the reply
becomes the error, not the handler result the claim promises. -/
theorem logging_nonfatal_cex :
    serverStepDecoded ⟨none, demoRegistry⟩
        ⟨.error "No space left on device", .ok (), .ok ()⟩ ServerState.init
        (.ok (.map [("endpoint", .str "get_action")]))
      = (⟨1, [], []⟩, mkError "No space left on device")
    ∧ okHandler.call (some (.map [])) = .ok (.map [("ok", .bool true)])
    ∧ mkError "No space left on device" ≠ .map [("ok", .bool true)] := by
  refine ⟨rfl, rfl, fun hcontra => ?_⟩
  injection hcontra with h1
  injection h1 with h2 h3
  injection h2 with h4 h5
  injection h5

/-- C9 (amended).  Image-saving failures are indeed non-fatal: a PIL
failure is swallowed by the bare `except` and the `np.save` fallback, so
the handler result is still returned with the fallback image recorded.
But log-record writing is fatal to the reply: the `with open(...jsonl)`
write has no local handler, so on failure (e.g. disk full) the outer
`except` replaces the successful handler result with an `error` reply;
only the step-counter increment survives.  Both parts are stated for
requests whose summary computations succeed (no zero-size observation or
result array, mapping result); a summary failure is yet another raise
before the log write that likewise turns the reply into an error. -/
theorem logging_failure_behaviour (cfg : ServerConfig) (st : ServerState)
    (req obs : List (String × Value)) (h : EndpointHandler) (result v : Value)
    (pilMsg logMsg : String)
    (hdata : dataOf req = .map obs)
    (hsum : summaryScan obs = .ok ())
    (hvid : findVideo obs = some v)
    (hreg : cfg.endpoints.lookup "get_action" = some h)
    (hcall : h.call (some (.map obs)) = .ok result)
    (hout : outputSummary result = .ok ()) :
    ((gaBranch cfg ⟨.ok (), .error pilMsg, .ok ()⟩ st req).2 = result
      ∧ (gaBranch cfg ⟨.ok (), .error pilMsg, .ok ()⟩ st req).1.images
          = st.images ++ [(st.stepCount + 1, true)]
      ∧ (gaBranch cfg ⟨.ok (), .error pilMsg, .ok ()⟩ st req).1.stepCount
          = st.stepCount + 1)
    ∧ ((gaBranch cfg ⟨.error logMsg, .ok (), .ok ()⟩ st req).2 = mkError logMsg
      ∧ (gaBranch cfg ⟨.error logMsg, .ok (), .ok ()⟩ st req).1.stepCount
          = st.stepCount + 1) := by
  have himg1 : imgStep ⟨.ok (), .error pilMsg, .ok ()⟩
      { st with stepCount := st.stepCount + 1 } obs
      = .ok { st with
          stepCount := st.stepCount + 1
          images := st.images ++ [(st.stepCount + 1, true)] } := by
    rw [imgStep, hvid]
  have hga1 : gaBranch cfg ⟨.ok (), .error pilMsg, .ok ()⟩ st req
      = ({ st with
            stepCount := st.stepCount + 1
            images := st.images ++ [(st.stepCount + 1, true)]
            logs := st.logs
              ++ [⟨st.stepCount + 1, "input"⟩, ⟨st.stepCount + 1, "output"⟩] },
         result) := by
    rw [gaBranch, hdata]
    dsimp only
    rw [hsum]
    dsimp only
    rw [himg1]
    dsimp only
    rw [hreg]
    dsimp only
    rw [hcall]
    dsimp only
    rw [hout]
  have himg2 : imgStep ⟨.error logMsg, .ok (), .ok ()⟩
      { st with stepCount := st.stepCount + 1 } obs
      = .ok { st with
          stepCount := st.stepCount + 1
          images := st.images ++ [(st.stepCount + 1, false)] } := by
    rw [imgStep, hvid]
  have hga2 : gaBranch cfg ⟨.error logMsg, .ok (), .ok ()⟩ st req
      = ({ st with
            stepCount := st.stepCount + 1
            images := st.images ++ [(st.stepCount + 1, false)] },
         mkError logMsg) := by
    rw [gaBranch, hdata]
    dsimp only
    rw [hsum]
    dsimp only
    rw [himg2]
    dsimp only
    rw [hreg]
    dsimp only
    rw [hcall]
    dsimp only
    rw [hout]
  exact ⟨⟨by rw [hga1], by rw [hga1], by rw [hga1]⟩, by rw [hga2], by rw [hga2]⟩

/-- C9 witness: a concrete `get_action` request with a video observation;
under a failing PIL save the handler result is returned with the fallback
recorded, and under a failing log write the reply is the error instead. -/
theorem logging_failure_behaviour_witness :
    ((gaBranch ⟨none, demoRegistry⟩ ⟨.ok (), .error "PIL cannot write mode", .ok ()⟩
        ServerState.init
        [("endpoint", .str "get_action"),
         ("data", .map [("observation.video.cam",
            .ndarray .u1 [1, 1, 3] [9, 9, 9])])]).2
      = .map [("ok", .bool true)]
    ∧ (gaBranch ⟨none, demoRegistry⟩ ⟨.ok (), .error "PIL cannot write mode", .ok ()⟩
        ServerState.init
        [("endpoint", .str "get_action"),
         ("data", .map [("observation.video.cam",
            .ndarray .u1 [1, 1, 3] [9, 9, 9])])]).1.images = [(1, true)])
    ∧ ((gaBranch ⟨none, demoRegistry⟩ ⟨.error "No space left on device", .ok (), .ok ()⟩
        ServerState.init
        [("endpoint", .str "get_action"),
         ("data", .map [("observation.video.cam",
            .ndarray .u1 [1, 1, 3] [9, 9, 9])])]).2
      = mkError "No space left on device"
    ∧ (gaBranch ⟨none, demoRegistry⟩ ⟨.error "No space left on device", .ok (), .ok ()⟩
        ServerState.init
        [("endpoint", .str "get_action"),
         ("data", .map [("observation.video.cam",
            .ndarray .u1 [1, 1, 3] [9, 9, 9])])]).1.stepCount = 1) := by
  have h := logging_failure_behaviour ⟨none, demoRegistry⟩ ServerState.init
    [("endpoint", .str "get_action"),
     ("data", .map [("observation.video.cam", .ndarray .u1 [1, 1, 3] [9, 9, 9])])]
    [("observation.video.cam", .ndarray .u1 [1, 1, 3] [9, 9, 9])]
    okHandler (.map [("ok", .bool true)]) (.ndarray .u1 [1, 1, 3] [9, 9, 9])
    "PIL cannot write mode" "No space left on device" rfl rfl rfl rfl rfl rfl
  refine ⟨⟨h.1.1, ?_⟩, h.2.1, ?_⟩
  · rw [h.1.2.1]
    rfl
  · rw [h.2.2]
    rfl

/-- C10.  A decoded, authenticated request with no `endpoint` field is
dispatched exactly as a `get_action` request: `request.get("endpoint",
"get_action")` supplies the default, so the step counter is incremented,
the two log records are written, and the inference handler is invoked on
the request's `data` field (`dataOf` yields the empty mapping when `data`
is also absent), its result becoming the reply; the success conclusion is
stated under the branch's own success conditions (both summary
computations, the image step and the log write succeed). -/
theorem missing_endpoint_defaults_to_get_action (cfg : ServerConfig) (env : ReqEnv)
    (st : ServerState) (req obs : List (String × Value)) (h : EndpointHandler)
    (result : Value)
    (hv : validateToken cfg.apiToken req = true)
    (hnoep : req.lookup "endpoint" = none)
    (hreg : cfg.endpoints.lookup "get_action" = some h)
    (hdata : dataOf req = .map obs)
    (hsum : summaryScan obs = .ok ())
    (hnovid : findVideo obs = none)
    (hcall : h.call (some (.map obs)) = .ok result)
    (hout : outputSummary result = .ok ())
    (hw : env.logWrite = .ok ()) :
    serverStepDecoded cfg env st (.ok (.map req)) = gaBranch cfg env st req
    ∧ gaBranch cfg env st req
      = ({ st with
            stepCount := st.stepCount + 1
            logs := st.logs
              ++ [⟨st.stepCount + 1, "input"⟩, ⟨st.stepCount + 1, "output"⟩] },
         result) := by
  have h1 : serverStepDecoded cfg env st (.ok (.map req)) = gaBranch cfg env st req := by
    simp only [serverStepDecoded, hv]
    rw [if_neg (by simp), serverStepAuthed, hnoep]
    simp only [Option.getD_none]
    rw [hreg]
    rfl
  have himg : imgStep env { st with stepCount := st.stepCount + 1 } obs
      = .ok { st with stepCount := st.stepCount + 1 } := by
    rw [imgStep, hnovid]
  refine ⟨h1, ?_⟩
  rw [gaBranch, hdata]
  dsimp only
  rw [hsum]
  dsimp only
  rw [himg]
  dsimp only
  rw [hreg]
  dsimp only
  rw [hcall]
  dsimp only
  rw [hout]
  dsimp only
  rw [hw]

/-- C10 witness: a request carrying only a `data` field is served by the
`get_action` handler, stepping the counter to 1 and logging step 1. -/
theorem missing_endpoint_defaults_witness :
    serverStepDecoded ⟨none, demoRegistry⟩ ReqEnv.allOk ServerState.init
        (.ok (.map [("data", .map [("x", .int 5)])]))
      = gaBranch ⟨none, demoRegistry⟩ ReqEnv.allOk ServerState.init
          [("data", .map [("x", .int 5)])]
    ∧ serverStepDecoded ⟨none, demoRegistry⟩ ReqEnv.allOk ServerState.init
        (.ok (.map [("data", .map [("x", .int 5)])]))
      = (⟨1, [⟨1, "input"⟩, ⟨1, "output"⟩], []⟩, .map [("ok", .bool true)]) := by
  have h := missing_endpoint_defaults_to_get_action ⟨none, demoRegistry⟩ ReqEnv.allOk
    ServerState.init [("data", .map [("x", .int 5)])] [("x", .int 5)] okHandler
    (.map [("ok", .bool true)]) rfl rfl rfl rfl rfl rfl rfl rfl rfl
  refine ⟨h.1, ?_⟩
  rw [h.1, h.2]
  rfl
